import Mathlib

/-!
Verification development for the orbital-mechanics / multi-agent coordination core.

The TypeScript sources are shallowly embedded over the exact reals: JS numbers
become `ℝ`, `Math.sqrt`/`Math.sin`/... become `Real.sqrt`/`Real.sin`/...,
thrown exceptions become `Option.none`, in-place mutation of arrays/records
becomes explicit state passing, and `Set<string>` becomes `Finset String`.
IEEE-754 rounding, `NaN` and signed infinities are outside this embedding.
-/

noncomputable section

/-- A 3-vector, embedding the `[number, number, number]` tuples of the source. -/
structure Vec3 where
  x : ℝ
  y : ℝ
  z : ℝ
deriving DecidableEq

namespace Vec3

/-- Componentwise addition. -/
def add (a b : Vec3) : Vec3 := ⟨a.x + b.x, a.y + b.y, a.z + b.z⟩

/-- Componentwise subtraction. -/
def sub (a b : Vec3) : Vec3 := ⟨a.x - b.x, a.y - b.y, a.z - b.z⟩

/-- Scalar multiple. -/
def smul (c : ℝ) (a : Vec3) : Vec3 := ⟨c * a.x, c * a.y, c * a.z⟩

/-- Euclidean norm, as the source computes it: `Math.sqrt(x*x + y*y + z*z)`. -/
def norm (a : Vec3) : ℝ := Real.sqrt (a.x * a.x + a.y * a.y + a.z * a.z)

def zero : Vec3 := ⟨0, 0, 0⟩

instance : Zero Vec3 := ⟨zero⟩

instance : Add Vec3 := ⟨add⟩

instance : Neg Vec3 := ⟨fun a => ⟨-a.x, -a.y, -a.z⟩⟩

@[simp] theorem add_def (a b : Vec3) : a + b = ⟨a.x + b.x, a.y + b.y, a.z + b.z⟩ := rfl

@[simp] theorem zero_def : (0 : Vec3) = ⟨0, 0, 0⟩ := rfl

@[simp] theorem mk_inj (a b c d e f : ℝ) :
    (Vec3.mk a b c = Vec3.mk d e f) ↔ (a = d ∧ b = e ∧ c = f) := by
  constructor
  · intro h; exact ⟨congrArg Vec3.x h, congrArg Vec3.y h, congrArg Vec3.z h⟩
  · rintro ⟨rfl, rfl, rfl⟩; rfl

@[simp] theorem neg_def (a : Vec3) : -a = ⟨-a.x, -a.y, -a.z⟩ := rfl

instance : AddCommGroup Vec3 where
  add_assoc a b c := by simp [add_assoc]
  zero_add a := by cases a; simp
  add_zero a := by cases a; simp
  add_comm a b := by simp [add_comm]
  neg_add_cancel a := by cases a; simp
  nsmul := nsmulRec
  zsmul := zsmulRec

end Vec3

/-- Cartesian position/velocity state in the ECI frame (`CartesianState` in the source). -/
structure CartesianState where
  position : Vec3
  velocity : Vec3
deriving DecidableEq

/-! ## Maneuver module: `applyDeltaV` (src/apps/web/src/sim/maneuvers/deltaV.ts)

The source throws on budget violations; the embedding returns `none` there.
The source never mutates its input `state` (it builds a fresh object), which the
pure embedding reflects by construction.
-/

/-- Embedding of `applyDeltaV(state, dvVector, dvRemaining)`. -/
def applyDeltaV (state : CartesianState) (dvVector : Vec3) (dvRemaining : ℝ) :
    Option (CartesianState × ℝ) :=
  if dvRemaining < 0 then
    none
  else
    let dvMagnitude := dvVector.norm
    if dvMagnitude > dvRemaining then
      none
    else
      some ({ position := state.position, velocity := state.velocity.add dvVector },
            max 0 (dvRemaining - dvMagnitude))

/-- C4: `applyDeltaV` fails (returns `none`) when the budget is negative, fails when
the requested magnitude exceeds the budget, and otherwise returns a state with
position unchanged, velocity increased componentwise by `dv`, and budget
`max 0 (dvRemaining − |dv|)`. Failure cannot mutate the input: the embedding is
pure and the source builds a fresh record only on success. -/
theorem applyDeltaV_spec (s : CartesianState) (dv : Vec3) (b : ℝ) :
    (b < 0 → applyDeltaV s dv b = none) ∧
    (dv.norm > b → applyDeltaV s dv b = none) ∧
    (0 ≤ b → dv.norm ≤ b →
      applyDeltaV s dv b =
        some ({ position := s.position, velocity := s.velocity.add dv },
              max 0 (b - dv.norm))) := by
  refine ⟨fun h => ?_, fun h => ?_, fun h0 hle => ?_⟩
  · simp [applyDeltaV, h]
  · by_cases hb : b < 0
    · simp [applyDeltaV, hb]
    · simp [applyDeltaV, hb, h]
  · simp [applyDeltaV, not_lt.mpr h0, not_lt.mpr hle]

/-- Witness for C4: a concrete burn of magnitude 100 against a budget of 100
succeeds, leaving position unchanged and budget 0. -/
theorem applyDeltaV_spec_witness :
    applyDeltaV ⟨⟨1, 2, 3⟩, ⟨4, 5, 6⟩⟩ ⟨60, 80, 0⟩ 100 =
      some ({ position := ⟨1, 2, 3⟩, velocity := Vec3.add ⟨4, 5, 6⟩ ⟨60, 80, 0⟩ },
            max 0 (100 - Vec3.norm ⟨60, 80, 0⟩)) := by
  have hnorm : Vec3.norm ⟨60, 80, 0⟩ = 100 := by
    unfold Vec3.norm
    rw [show (60 * 60 + 80 * 80 + 0 * 0 : ℝ) = 100 ^ 2 by norm_num]
    rw [Real.sqrt_sq (by norm_num)]
  exact (applyDeltaV_spec ⟨⟨1, 2, 3⟩, ⟨4, 5, 6⟩⟩ ⟨60, 80, 0⟩ 100).2.2
    (by norm_num) (by rw [hnorm])

/-- C9: a zero delta-v request with a nonnegative budget succeeds and is the
identity: the state is returned unchanged and the budget is returned exactly. -/
theorem applyDeltaV_zero (s : CartesianState) (b : ℝ) (hb : 0 ≤ b) :
    applyDeltaV s ⟨0, 0, 0⟩ b = some (s, b) := by
  have hnorm : Vec3.norm ⟨0, 0, 0⟩ = 0 := by
    simp [Vec3.norm]
  have h := (applyDeltaV_spec s ⟨0, 0, 0⟩ b).2.2 hb (by rw [hnorm]; exact hb)
  rw [h, hnorm]
  cases s with
  | mk p v =>
    cases v
    simp [Vec3.add, max_eq_right hb]

/-- Witness for C9: the zero burn at budget 5 returns the state and budget 5. -/
theorem applyDeltaV_zero_witness :
    applyDeltaV ⟨⟨1, 2, 3⟩, ⟨4, 5, 6⟩⟩ ⟨0, 0, 0⟩ 5 = some (⟨⟨1, 2, 3⟩, ⟨4, 5, 6⟩⟩, 5) :=
  applyDeltaV_zero ⟨⟨1, 2, 3⟩, ⟨4, 5, 6⟩⟩ 5 (by norm_num)

/-! ## Simulation clock (`SimClock`, src `SimClock` class)

The clock state is the record behind the `SimClock` class; the RNG seeding side
effect (`setSeed`) touches no clock field and is dropped. Methods become
state-to-state functions.
-/

/-- Embedding of `SimClockState`. -/
structure SimClockState where
  paused : Bool
  timeScale : ℝ
  simTime : ℝ
  seed : String
  stepDelta : ℝ

/-- Embedding of `SimClock.setTimeScale`: clamps the scale into `[0.1, 100]`
first, then checks the already-clamped value against `0`. -/
def SimClock.setTimeScale (s : SimClockState) (scale : ℝ) : SimClockState :=
  let s1 := { s with timeScale := max 0.1 (min 100 scale) }
  if s1.timeScale = 0 then { s1 with paused := true } else s1

/-- C6: the stored time-scale is always clamped into `[0.1, 100]`, but the
advertised auto-pause on `setTimeScale(0)` never happens: the clamp runs before
the `=== 0` test, so the test compares `0.1` to `0` and the pause branch is dead.
An unpaused clock stays unpaused after `setTimeScale(0)`, with scale `0.1` —
contradicting both the spec and the source's own comment at that branch. -/
theorem setTimeScale_clamps_and_never_pauses :
    (∀ (s : SimClockState) (scale : ℝ),
      0.1 ≤ (SimClock.setTimeScale s scale).timeScale ∧
      (SimClock.setTimeScale s scale).timeScale ≤ 100 ∧
      (SimClock.setTimeScale s scale).paused = s.paused) ∧
    (SimClock.setTimeScale ⟨false, 1, 0, "seed", 1⟩ 0).timeScale = 0.1 ∧
    (SimClock.setTimeScale ⟨false, 1, 0, "seed", 1⟩ 0).paused = false := by
  have key : ∀ (s : SimClockState) (scale : ℝ),
      SimClock.setTimeScale s scale = { s with timeScale := max 0.1 (min 100 scale) } := by
    intro s scale
    have hpos : (0 : ℝ) < max 0.1 (min 100 scale) :=
      lt_max_of_lt_left (by norm_num)
    unfold SimClock.setTimeScale
    simp only []
    rw [if_neg (by exact ne_of_gt hpos)]
  refine ⟨fun s scale => ?_, ?_, ?_⟩
  · rw [key]
    refine ⟨le_max_left _ _, ?_, rfl⟩
    exact max_le (by norm_num) (min_le_left _ _)
  · rw [key]; norm_num
  · rw [key]

/-! ## Orbit conversions and Kepler solver (src/apps/web/src/sim/orbit)

`normalizeAngle` uses the JS remainder operator, which truncates the quotient
toward zero; `jsRem` models that exactly. Thrown conversion errors become
`none`. The JS `!isFinite(a)` guard in `cartesianToElements` fires exactly when
the vis-viva denominator is zero (division by zero yields an infinity in JS),
which the real embedding tests directly; `NaN`-producing degenerate inputs
(zero radius) are outside the embedding. The `!isFinite(E)` reset inside the
Newton iteration can never fire over `ℝ` and is dropped.
-/

/-- Gravitational parameter of Earth, `EARTH_MU` (m³/s²). -/
def EARTH_MU : ℝ := 3.986004418e14

/-- JS remainder `a % b`: `a - b * trunc(a / b)`, quotient truncated toward zero. -/
def jsRem (a b : ℝ) : ℝ :=
  if 0 ≤ a / b then a - b * ⌊a / b⌋ else a - b * ⌈a / b⌉

/-- Embedding of `normalizeAngle`: reduce modulo `2π`, then shift negatives up. -/
def normalizeAngle (angle : ℝ) : ℝ :=
  let r := jsRem angle (2 * Real.pi)
  if r < 0 then r + 2 * Real.pi else r

theorem normalizeAngle_nonneg (x : ℝ) : 0 ≤ normalizeAngle x := by
  unfold normalizeAngle jsRem
  have hb : (0 : ℝ) < 2 * Real.pi := by positivity
  by_cases h : 0 ≤ x / (2 * Real.pi)
  · simp only [if_pos h]
    have hr : x - 2 * Real.pi * ⌊x / (2 * Real.pi)⌋ =
        2 * Real.pi * Int.fract (x / (2 * Real.pi)) := by
      rw [Int.fract]
      field_simp
    by_cases hneg : x - 2 * Real.pi * ⌊x / (2 * Real.pi)⌋ < 0
    · refine absurd hneg (not_lt.mpr ?_)
      rw [hr]
      exact mul_nonneg hb.le (Int.fract_nonneg _)
    · simp only [if_neg hneg]
      exact not_lt.mp hneg
  · simp only [if_neg h]
    have hx : 2 * Real.pi * (x / (2 * Real.pi)) = x := by field_simp
    by_cases hneg : x - 2 * Real.pi * ⌈x / (2 * Real.pi)⌉ < 0
    · simp only [if_pos hneg]
      have h1 : (⌈x / (2 * Real.pi)⌉ : ℝ) < x / (2 * Real.pi) + 1 :=
        Int.ceil_lt_add_one _
      have h2 : 2 * Real.pi * (⌈x / (2 * Real.pi)⌉ : ℝ) <
          2 * Real.pi * (x / (2 * Real.pi) + 1) := by
        exact mul_lt_mul_of_pos_left h1 hb
      rw [mul_add, hx] at h2
      linarith
    · simp only [if_neg hneg]
      exact not_lt.mp hneg

theorem normalizeAngle_lt (x : ℝ) : normalizeAngle x < 2 * Real.pi := by
  unfold normalizeAngle jsRem
  have hb : (0 : ℝ) < 2 * Real.pi := by positivity
  by_cases h : 0 ≤ x / (2 * Real.pi)
  · simp only [if_pos h]
    have hfr : Int.fract (x / (2 * Real.pi)) < 1 := Int.fract_lt_one _
    have hr : x - 2 * Real.pi * ⌊x / (2 * Real.pi)⌋ =
        2 * Real.pi * Int.fract (x / (2 * Real.pi)) := by
      rw [Int.fract]
      field_simp
    by_cases hneg : x - 2 * Real.pi * ⌊x / (2 * Real.pi)⌋ < 0
    · simp only [if_pos hneg]; nlinarith
    · simp only [if_neg hneg]; nlinarith
  · simp only [if_neg h]
    have hx : 2 * Real.pi * (x / (2 * Real.pi)) = x := by field_simp
    have h1 : x / (2 * Real.pi) ≤ ⌈x / (2 * Real.pi)⌉ := Int.le_ceil _
    have h1m : 2 * Real.pi * (x / (2 * Real.pi)) ≤
        2 * Real.pi * (⌈x / (2 * Real.pi)⌉ : ℝ) :=
      mul_le_mul_of_nonneg_left h1 hb.le
    rw [hx] at h1m
    by_cases hneg : x - 2 * Real.pi * ⌈x / (2 * Real.pi)⌉ < 0
    · simp only [if_pos hneg]; linarith
    · simp only [if_neg hneg]; linarith

theorem normalizeAngle_eq_self {y : ℝ} (h0 : 0 ≤ y) (h1 : y < 2 * Real.pi) :
    normalizeAngle y = y := by
  unfold normalizeAngle jsRem
  have hb : (0 : ℝ) < 2 * Real.pi := by positivity
  have hq0 : 0 ≤ y / (2 * Real.pi) := div_nonneg h0 hb.le
  have hq1 : y / (2 * Real.pi) < 1 := (div_lt_one hb).mpr h1
  have hfl : ⌊y / (2 * Real.pi)⌋ = 0 := Int.floor_eq_zero_iff.mpr ⟨hq0, hq1⟩
  simp only [if_pos hq0, hfl, Int.cast_zero, mul_zero, sub_zero, if_neg (not_lt.mpr h0)]

theorem normalizeAngle_idem (x : ℝ) :
    normalizeAngle (normalizeAngle x) = normalizeAngle x :=
  normalizeAngle_eq_self (normalizeAngle_nonneg x) (normalizeAngle_lt x)

/-- Two-argument arctangent with the quadrant conventions of `Math.atan2`. -/
def atan2 (y x : ℝ) : ℝ :=
  if 0 < x then Real.arctan (y / x)
  else if x < 0 then
    if 0 ≤ y then Real.arctan (y / x) + Real.pi else Real.arctan (y / x) - Real.pi
  else if 0 < y then Real.pi / 2
  else if y < 0 then -(Real.pi / 2)
  else 0

/-- Embedding of `OrbitalElements`; the two optional anomaly fields mirror the
source's optional `ν`/`M`. -/
structure OrbitalElements where
  a : ℝ
  e : ℝ
  i : ℝ
  Ω : ℝ
  ω : ℝ
  ν : Option ℝ
  M : Option ℝ

/-- Fixed-fuel Newton-Raphson loop of `solveKeplerEquation`: `break` on small
residual, `continue` (skip the update but consume the iteration) on a small
derivative. Over `ℝ` the iterate is always finite, so the JS `isFinite` reset
is unreachable and omitted. -/
def solveKeplerIter (M e : ℝ) : ℝ → Nat → ℝ
  | E, 0 => E
  | E, n + 1 =>
    let f := E - e * Real.sin E - M
    let fPrime := 1 - e * Real.cos E
    if |f| < 1e-12 then E
    else if |fPrime| < 1e-10 then solveKeplerIter M e E n
    else solveKeplerIter M e (E - f / fPrime) n

/-- Embedding of `solveKeplerEquation(M, e)`: normalize `M`, pick the initial
guess (`π` when `e > 0.8`, else `M`), run up to 50 Newton iterations, normalize
the result. -/
def solveKeplerEquation (M e : ℝ) : ℝ :=
  let Mn := normalizeAngle M
  let E0 := if e > 0.8 then Real.pi else Mn
  normalizeAngle (solveKeplerIter Mn e E0 50)

theorem solveKeplerEquation_normalize (M e : ℝ) :
    solveKeplerEquation (normalizeAngle M) e = solveKeplerEquation M e := by
  unfold solveKeplerEquation
  rw [normalizeAngle_idem]

/-- Embedding of `trueAnomalyFromEccentric(E, e)`. -/
def trueAnomalyFromEccentric (E e : ℝ) : ℝ :=
  let cosE := Real.cos E
  let sinE := Real.sin E
  let cosv := (cosE - e) / (1 - e * cosE)
  let sinv := (Real.sqrt (1 - e * e) * sinE) / (1 - e * cosE)
  normalizeAngle (atan2 sinv cosv)

/-- Body of `elementsToCartesian` once the true anomaly `ν` has been resolved:
perifocal position/velocity, then the 3-1-3 rotation `Rz(Ω)·Rx(i)·Rz(ω)`. -/
def elementsToCartesianTrue (el : OrbitalElements) (ν : ℝ) : CartesianState :=
  let p := el.a * (1 - el.e * el.e)
  let r := p / (1 + el.e * Real.cos ν)
  let rPx := r * Real.cos ν
  let rPy := r * Real.sin ν
  let rPz := (0 : ℝ)
  let h := Real.sqrt (EARTH_MU * p)
  let vPx := -(EARTH_MU / h) * Real.sin ν
  let vPy := (EARTH_MU / h) * (el.e + Real.cos ν)
  let vPz := (0 : ℝ)
  let cosΩ := Real.cos el.Ω
  let sinΩ := Real.sin el.Ω
  let cosi := Real.cos el.i
  let sini := Real.sin el.i
  let cosω := Real.cos el.ω
  let sinω := Real.sin el.ω
  let R11 := cosΩ * cosω - sinΩ * cosi * sinω
  let R12 := -cosΩ * sinω - sinΩ * cosi * cosω
  let R13 := sinΩ * sini
  let R21 := sinΩ * cosω + cosΩ * cosi * sinω
  let R22 := -sinΩ * sinω + cosΩ * cosi * cosω
  let R23 := -cosΩ * sini
  let R31 := sini * sinω
  let R32 := sini * cosω
  let R33 := cosi
  { position := ⟨R11 * rPx + R12 * rPy + R13 * rPz,
                 R21 * rPx + R22 * rPy + R23 * rPz,
                 R31 * rPx + R32 * rPy + R33 * rPz⟩,
    velocity := ⟨R11 * vPx + R12 * vPy + R13 * vPz,
                 R21 * vPx + R22 * vPy + R23 * vPz,
                 R31 * vPx + R32 * vPy + R33 * vPz⟩ }

theorem elementsToCartesianTrue_congr (el₁ el₂ : OrbitalElements) (v : ℝ)
    (ha : el₁.a = el₂.a) (he : el₁.e = el₂.e) (hi : el₁.i = el₂.i)
    (hΩ : el₁.Ω = el₂.Ω) (hω : el₁.ω = el₂.ω) :
    elementsToCartesianTrue el₁ v = elementsToCartesianTrue el₂ v := by
  unfold elementsToCartesianTrue
  rw [ha, he, hi, hΩ, hω]

/-- Embedding of `elementsToCartesian`: resolve `ν` directly or via the Kepler
solver from `M`; `none` when both anomalies are absent (the thrown error). -/
def elementsToCartesian (elements : OrbitalElements) : Option CartesianState :=
  match elements.ν with
  | some v => some (elementsToCartesianTrue elements v)
  | none =>
    match elements.M with
    | some m =>
      some (elementsToCartesianTrue elements
        (trueAnomalyFromEccentric (solveKeplerEquation m elements.e) elements.e))
    | none => none

/-- Embedding of `cartesianToElements`: `none` models the hyperbolic-orbit and
near-zero-angular-momentum errors. -/
def cartesianToElements (state : CartesianState) : Option OrbitalElements :=
  let x := state.position.x
  let y := state.position.y
  let z := state.position.z
  let vx := state.velocity.x
  let vy := state.velocity.y
  let vz := state.velocity.z
  let r := Real.sqrt (x * x + y * y + z * z)
  let v := Real.sqrt (vx * vx + vy * vy + vz * vz)
  let hx := y * vz - z * vy
  let hy := z * vx - x * vz
  let hz := x * vy - y * vx
  let h := Real.sqrt (hx * hx + hy * hy + hz * hz)
  let energy := v * v / 2 - EARTH_MU / r
  let denom := 2 / r - v * v / EARTH_MU
  let a0 := 1 / denom
  let aOpt : Option ℝ :=
    if a0 < 0 ∨ denom = 0 then
      if energy < 0 then some (-EARTH_MU / (2 * energy)) else none
    else some a0
  match aOpt with
  | none => none
  | some a =>
    let v2 := v * v
    let rv := x * vx + y * vy + z * vz
    let ex := (1 / EARTH_MU) * ((v2 - EARTH_MU / r) * x - rv * vx)
    let ey := (1 / EARTH_MU) * ((v2 - EARTH_MU / r) * y - rv * vy)
    let ez := (1 / EARTH_MU) * ((v2 - EARTH_MU / r) * z - rv * vz)
    let e := Real.sqrt (ex * ex + ey * ey + ez * ez)
    if h < 1e-10 then none
    else
      let cosI := hz / h
      let i := Real.arccos (max (-1) (min 1 cosI))
      let nx := -hy
      let ny := hx
      let n := Real.sqrt (nx * nx + ny * ny)
      let Ω :=
        if n < 1e-10 then 0
        else
          let W := Real.arccos (nx / n)
          if ny < 0 then 2 * Real.pi - W else W
      let eDotN := ex * nx + ey * ny
      let ω :=
        if n < 1e-10 ∨ e < 1e-10 then 0
        else
          let w0 := Real.arccos (eDotN / (e * n))
          if ez < 0 then 2 * Real.pi - w0 else w0
      let rDotE := x * ex + y * ey + z * ez
      let ν :=
        if e < 1e-10 then
          if n > 1e-10 then
            let rDotN := x * nx + y * ny
            let cosArgLat := rDotN / (r * n)
            let argLat := Real.arccos (max (-1) (min 1 cosArgLat))
            let ν0 := argLat - ω
            if z < 0 then 2 * Real.pi - ν0 else ν0
          else
            normalizeAngle (atan2 y x - ω)
        else
          let cosv := rDotE / (r * e)
          let sinv := rv / (r * Real.sqrt (EARTH_MU * a * (1 - e * e)))
          let ν0 := atan2 sinv cosv
          if ν0 < 0 then ν0 + 2 * Real.pi else ν0
      some { a := a, e := e, i := i,
             Ω := normalizeAngle Ω, ω := normalizeAngle ω,
             ν := some (normalizeAngle ν), M := none }

/-- Embedding of `meanAnomalyFromTrue(ν, e)` from the propagator. -/
def meanAnomalyFromTrue (ν e : ℝ) : ℝ :=
  let cosν := Real.cos ν
  let sinν := Real.sin ν
  let cosE := (e + cosν) / (1 + e * cosν)
  let sinE := (Real.sqrt (1 - e * e) * sinν) / (1 + e * cosν)
  let E := atan2 sinE cosE
  normalizeAngle (E - e * Real.sin E)

/-- Embedding of `propagateKepler(state, deltaTime)`. `elements.ν!` in the
source is a non-null assertion; `cartesianToElements` always fills `ν`, modelled
by `Option.getD`. The source also binds an orbital `period` that it never
reads; that dead binding is dropped. -/
def propagateKepler (state : CartesianState) (deltaTime : ℝ) : Option CartesianState :=
  match cartesianToElements state with
  | none => none
  | some elements =>
    let n := Real.sqrt (EARTH_MU / (elements.a * elements.a * elements.a))
    let M0 := meanAnomalyFromTrue (elements.ν.getD 0) elements.e
    let deltaM := n * deltaTime
    let M1 := normalizeAngle (M0 + deltaM)
    elementsToCartesian { elements with M := some M1, ν := none }

/-- Modelled from the spec: the variant of `propagateKepler` that skips the
normalization of the advanced mean anomaly `M₁ = M₀ + nΔt`, used as the
comparison point for the claim that the normalization is purely
representational. -/
def propagateKeplerNoNorm (state : CartesianState) (deltaTime : ℝ) : Option CartesianState :=
  match cartesianToElements state with
  | none => none
  | some elements =>
    let n := Real.sqrt (EARTH_MU / (elements.a * elements.a * elements.a))
    let M0 := meanAnomalyFromTrue (elements.ν.getD 0) elements.e
    let deltaM := n * deltaTime
    let M1 := M0 + deltaM
    elementsToCartesian { elements with M := some M1, ν := none }

/-- C2: normalizing the advanced mean anomaly to `[0, 2π)` in `propagateKepler`
is purely representational: on every input the result equals that of the
variant without the normalization step, because `solveKeplerEquation` itself
normalizes its mean-anomaly argument first (and normalization is idempotent). -/
theorem propagateKepler_norm_representational (s : CartesianState) (dt : ℝ) :
    propagateKepler s dt = propagateKeplerNoNorm s dt := by
  unfold propagateKepler propagateKeplerNoNorm
  cases h : cartesianToElements s with
  | none => rfl
  | some el =>
    simp only [elementsToCartesian, solveKeplerEquation_normalize]
    congr 1

/-! ## Agents, objectives, task allocation and completion (task module sources)

`Agent` keeps the fields the embedded operations read (`id`, `state`); the
behavior flags, team tag, delta-v budget and UI flags are passed through
untouched by every function embedded here and are omitted. JS `Set<string>`
becomes `Finset String`; in-place mutation of the objective array becomes a
returned list. The `distance` helper is duplicated verbatim in the allocation
and steering sources; it is embedded once.
-/

/-- Embedding of `Agent` (identity and Cartesian state). -/
structure Agent where
  id : String
  state : CartesianState

instance : Inhabited Agent := ⟨⟨"", ⟨⟨0, 0, 0⟩, ⟨0, 0, 0⟩⟩⟩⟩

/-- Embedding of the `distance(pos1, pos2)` helper. -/
def distance (pos1 pos2 : Vec3) : ℝ :=
  let dx := pos2.x - pos1.x
  let dy := pos2.y - pos1.y
  let dz := pos2.z - pos1.z
  Real.sqrt (dx * dx + dy * dy + dz * dz)

/-- Embedding of `findNearestAgent`: the running minimum starts at `Infinity`,
modelled by `none` (any real distance beats it). -/
def findNearestAgent (agents : List Agent) (position : Vec3)
    (excludeAgentIds : Finset String := ∅) : Option Agent :=
  (agents.foldl (fun best agent =>
    if agent.id ∈ excludeAgentIds then best
    else
      let dist := distance agent.state.position position
      match best with
      | none => some (agent, dist)
      | some (_, bestDist) => if dist < bestDist then some (agent, dist) else best)
    none).map Prod.fst

/-- Embedding of `findAgentsInRadius`. -/
def findAgentsInRadius (agents : List Agent) (position : Vec3) (radius : ℝ)
    (excludeAgentIds : Finset String := ∅) : List Agent :=
  agents.filter (fun agent =>
    if agent.id ∈ excludeAgentIds then false
    else decide (distance agent.state.position position ≤ radius))

/-- Embedding of `InspectPointObjective`. -/
structure InspectPointObjective where
  id : String
  position : Vec3
  points : ℝ
  completed : Bool
  threshold : ℝ
  vThreshold : Option ℝ

/-- Embedding of `RelayNodeObjective`. -/
structure RelayNodeObjective where
  id : String
  position : Vec3
  points : ℝ
  completed : Bool
  holdDuration : ℝ
  threshold : ℝ
  assignedAgentId : Option String
  startTime : Option ℝ

/-- Embedding of `HoldFormationZoneObjective`. -/
structure HoldFormationZoneObjective where
  id : String
  position : Vec3
  points : ℝ
  completed : Bool
  radius : ℝ
  requiredAgents : Nat
  assignedAgentIds : List String

/-- Embedding of the `Objective` discriminated union. -/
inductive Objective where
  | inspect (o : InspectPointObjective)
  | relay (o : RelayNodeObjective)
  | zone (o : HoldFormationZoneObjective)

def Objective.id : Objective → String
  | .inspect o => o.id
  | .relay o => o.id
  | .zone o => o.id

def Objective.position : Objective → Vec3
  | .inspect o => o.position
  | .relay o => o.position
  | .zone o => o.position

def Objective.completed : Objective → Bool
  | .inspect o => o.completed
  | .relay o => o.completed
  | .zone o => o.completed

/-- Inner loop of the `HOLD_FORMATION_ZONE` allocation case: assign up to `k`
nearest unassigned agents, stopping early when none remain (`break`). -/
def assignNeeded (agents : List Agent) (position : Vec3) :
    Nat → List String × Finset String → List String × Finset String
  | 0, st => st
  | k + 1, (ids, s) =>
    match findNearestAgent agents position s with
    | some nearest => assignNeeded agents position k (ids ++ [nearest.id], insert nearest.id s)
    | none => (ids, s)

/-- Body of the per-objective `switch` in `allocateTasks`, threading the
`assignedAgentIds` set. (JS `requiredAgents - length` may be negative with the
loop guarded by `> 0`; truncated `Nat` subtraction is equivalent.) -/
def allocateStep (agents : List Agent) (assigned : Finset String) :
    Objective → Objective × Finset String
  | .inspect o =>
    match findNearestAgent agents o.position assigned with
    | some nearest => (.inspect o, insert nearest.id assigned)
    | none => (.inspect o, assigned)
  | .relay o =>
    match o.assignedAgentId with
    | some aid =>
      if agents.any (fun a => a.id == aid) then (.relay o, insert aid assigned)
      else
        match findNearestAgent agents o.position assigned with
        | some nearest =>
          (.relay { o with assignedAgentId := some nearest.id }, insert nearest.id assigned)
        | none => (.relay { o with assignedAgentId := none }, assigned)
    | none =>
      match findNearestAgent agents o.position assigned with
      | some nearest =>
        (.relay { o with assignedAgentId := some nearest.id }, insert nearest.id assigned)
      | none => (.relay o, assigned)
  | .zone o =>
    let kept := o.assignedAgentIds.filter (fun aId => agents.any (fun a => a.id == aId))
    let inZone := findAgentsInRadius agents o.position o.radius
    let step1 := inZone.foldl (fun (acc : List String × Finset String) agent =>
        (if agent.id ∈ acc.1 then acc.1 else acc.1 ++ [agent.id], insert agent.id acc.2))
      (kept, assigned)
    let neededAgents := o.requiredAgents - step1.1.length
    let step2 := assignNeeded agents o.position neededAgents step1
    (.zone { o with assignedAgentIds := step2.1 }, step2.2)

/-- Loop of `allocateTasks` over the objective list: completed objectives are
skipped entirely (`continue` fires before the `switch`). -/
def allocateGo (agents : List Agent) : Finset String → List Objective → List Objective
  | _, [] => []
  | assigned, obj :: rest =>
    if obj.completed then obj :: allocateGo agents assigned rest
    else
      let r := allocateStep agents assigned obj
      r.1 :: allocateGo agents r.2 rest

/-- Embedding of `allocateTasks(agents, objectives)`; returns the updated
objective list in place of the source's in-place mutation. -/
def allocateTasks (agents : List Agent) (objectives : List Objective) : List Objective :=
  allocateGo agents ∅ objectives

/-- Body of the per-objective `switch` in `updateObjectiveState`, for an
uncompleted objective: the updated objective and whether it newly completed. -/
def stepObjective (agents : List Agent) (simTime : ℝ) : Objective → Objective × Bool
  | .inspect o =>
    if agents.any (fun agent =>
        decide (distance agent.state.position o.position ≤ o.threshold) &&
        decide (Vec3.norm agent.state.velocity ≤ o.vThreshold.getD 10)) then
      (.inspect { o with completed := true }, true)
    else (.inspect o, false)
  | .relay o =>
    match o.assignedAgentId with
    | none => (.relay o, false)
    | some aid =>
      match agents.find? (fun a => a.id == aid) with
      | none => (.relay { o with assignedAgentId := none, startTime := none }, false)
      | some assignedAgent =>
        let dist := distance assignedAgent.state.position o.position
        if dist ≤ o.threshold then
          match o.startTime with
          | none => (.relay { o with startTime := some simTime }, false)
          | some start =>
            if simTime - start ≥ o.holdDuration then
              (.relay { o with completed := true }, true)
            else (.relay o, false)
        else (.relay { o with startTime := none }, false)
  | .zone o =>
    let agentsInZone := findAgentsInRadius agents o.position o.radius
    if agentsInZone.length ≥ o.requiredAgents then (.zone { o with completed := true }, true)
    else (.zone o, false)

/-- Loop of `updateObjectiveState`: completed objectives are skipped, newly
completed ids are collected in objective order. -/
def updateGo (agents : List Agent) (simTime : ℝ) : List Objective → List Objective × List String
  | [] => ([], [])
  | obj :: rest =>
    let head := if obj.completed then (obj, false) else stepObjective agents simTime obj
    let tail := updateGo agents simTime rest
    (head.1 :: tail.1, (if head.2 then [head.1.id] else []) ++ tail.2)

/-- Embedding of `updateObjectiveState(objectives, agents, simTime)`: the
updated objectives plus the array of newly completed ids. -/
def updateObjectiveState (objectives : List Objective) (agents : List Agent) (simTime : ℝ) :
    List Objective × List String :=
  updateGo agents simTime objectives

/-! ## Objective steering (`computeObjectiveSteering`) -/

/-- Embedding of `VelocityAdjustment`. -/
structure VelocityAdjustment where
  delta : Vec3

/-- Embedding of `ObjectiveSteeringParams`. -/
structure ObjectiveSteeringParams where
  objectiveWeight : ℝ

def DEFAULT_OBJECTIVE_STEERING_PARAMS : ObjectiveSteeringParams := ⟨0.5⟩

/-- Target-selection loop of `computeObjectiveSteering`: uncompleted
InspectPoints compete by distance against the current candidate of any kind;
RelayNode/Zone objectives assigned to the agent replace the candidate
unconditionally. -/
def selectTarget (agent : Agent) : Option Objective → List Objective → Option Objective
  | target, [] => target
  | target, obj :: rest =>
    if obj.completed then selectTarget agent target rest
    else
      match obj with
      | .inspect o =>
        let dist := distance agent.state.position o.position
        match target with
        | none => selectTarget agent (some obj) rest
        | some tgt =>
          let currentDist := distance agent.state.position tgt.position
          if dist < currentDist then selectTarget agent (some obj) rest
          else selectTarget agent target rest
      | .relay o =>
        if o.assignedAgentId = some agent.id then selectTarget agent (some obj) rest
        else selectTarget agent target rest
      | .zone o =>
        if agent.id ∈ o.assignedAgentIds then selectTarget agent (some obj) rest
        else selectTarget agent target rest

/-- Embedding of `computeObjectiveSteering(agent, objectives, params)`. -/
def computeObjectiveSteering (agent : Agent) (objectives : List Objective)
    (params : ObjectiveSteeringParams := DEFAULT_OBJECTIVE_STEERING_PARAMS) :
    VelocityAdjustment :=
  match selectTarget agent none objectives with
  | none => ⟨⟨0, 0, 0⟩⟩
  | some targetObjective =>
    let dx := targetObjective.position.x - agent.state.position.x
    let dy := targetObjective.position.y - agent.state.position.y
    let dz := targetObjective.position.z - agent.state.position.z
    let dist := Real.sqrt (dx * dx + dy * dy + dz * dz)
    if dist < 1e-6 then ⟨⟨0, 0, 0⟩⟩
    else
      ⟨⟨dx / dist * params.objectiveWeight,
        dy / dist * params.objectiveWeight,
        dz / dist * params.objectiveWeight⟩⟩

/-! ### Allocation facts -/

theorem allocateStep_fields (agents : List Agent) (assigned : Finset String)
    (obj : Objective) :
    ((allocateStep agents assigned obj).1).id = obj.id ∧
    ((allocateStep agents assigned obj).1).completed = obj.completed := by
  cases obj with
  | inspect o =>
    simp only [allocateStep]
    rcases h : findNearestAgent agents o.position assigned with _ | nearest <;>
      simp only [h] <;> exact ⟨by simp [Objective.id], by simp [Objective.completed]⟩
  | relay o =>
    simp only [allocateStep]
    rcases ha : o.assignedAgentId with _ | aid <;> simp only [ha]
    · rcases h : findNearestAgent agents o.position assigned with _ | nearest <;>
        simp only [h] <;> exact ⟨by simp [Objective.id], by simp [Objective.completed]⟩
    · by_cases hex : (agents.any fun a => a.id == aid) = true
      · simp only [if_pos hex]; exact ⟨by simp [Objective.id], by simp [Objective.completed]⟩
      · simp only [if_neg hex]
        rcases h : findNearestAgent agents o.position assigned with _ | nearest <;>
          simp only [h] <;> exact ⟨by simp [Objective.id], by simp [Objective.completed]⟩
  | zone o => exact ⟨rfl, rfl⟩

theorem allocateStep_id (agents : List Agent) (assigned : Finset String) (obj : Objective) :
    ((allocateStep agents assigned obj).1).id = obj.id :=
  (allocateStep_fields agents assigned obj).1

theorem allocateStep_completed (agents : List Agent) (assigned : Finset String)
    (obj : Objective) :
    ((allocateStep agents assigned obj).1).completed = obj.completed :=
  (allocateStep_fields agents assigned obj).2

theorem allocateGo_preserves_completed (agents : List Agent) :
    ∀ (objs : List Objective) (assigned : Finset String) (j : Nat) (o : Objective),
      objs[j]? = some o → o.completed = true →
      (allocateGo agents assigned objs)[j]? = some o := by
  intro objs
  induction objs with
  | nil => intro assigned j o hj _; simp at hj
  | cons hd tl ih =>
    intro assigned j o hj hc
    cases j with
    | zero =>
      simp only [List.getElem?_cons_zero, Option.some_inj] at hj
      subst hj
      simp [allocateGo, hc]
    | succ k =>
      simp only [List.getElem?_cons_succ] at hj
      by_cases h : hd.completed
      · simp only [allocateGo, if_pos h, List.getElem?_cons_succ]
        exact ih assigned k o hj hc
      · simp only [allocateGo, if_neg h, List.getElem?_cons_succ]
        exact ih _ k o hj hc

theorem allocateGo_pointwise (agents : List Agent) :
    ∀ (objs : List Objective) (assigned : Finset String) (j : Nat) (o : Objective),
      objs[j]? = some o →
      ∃ o1, (allocateGo agents assigned objs)[j]? = some o1 ∧
        o1.id = o.id ∧ o1.completed = o.completed := by
  intro objs
  induction objs with
  | nil => intro assigned j o hj; simp at hj
  | cons hd tl ih =>
    intro assigned j o hj
    cases j with
    | zero =>
      simp only [List.getElem?_cons_zero, Option.some_inj] at hj
      subst hj
      by_cases h : hd.completed
      · exact ⟨hd, by simp [allocateGo, h], rfl, rfl⟩
      · refine ⟨(allocateStep agents assigned hd).1, ?_, allocateStep_id _ _ _,
          allocateStep_completed _ _ _⟩
        simp [allocateGo, h]
    | succ k =>
      simp only [List.getElem?_cons_succ] at hj
      by_cases h : hd.completed
      · obtain ⟨o1, h1, h2, h3⟩ := ih assigned k o hj
        exact ⟨o1, by simpa [allocateGo, h] using h1, h2, h3⟩
      · obtain ⟨o1, h1, h2, h3⟩ := ih (allocateStep agents assigned hd).2 k o hj
        exact ⟨o1, by simpa [allocateGo, h] using h1, h2, h3⟩

theorem allocateGo_length (agents : List Agent) :
    ∀ (objs : List Objective) (assigned : Finset String),
      (allocateGo agents assigned objs).length = objs.length := by
  intro objs
  induction objs with
  | nil => intro assigned; rfl
  | cons hd tl ih =>
    intro assigned
    by_cases h : hd.completed <;> simp [allocateGo, h, ih]

theorem allocateGo_map_id (agents : List Agent) :
    ∀ (objs : List Objective) (assigned : Finset String),
      (allocateGo agents assigned objs).map Objective.id = objs.map Objective.id := by
  intro objs
  induction objs with
  | nil => intro assigned; rfl
  | cons hd tl ih =>
    intro assigned
    by_cases h : hd.completed <;>
      simp [allocateGo, h, ih, allocateStep_id]

/-- C10: `allocateTasks` leaves every already-completed objective entirely
unchanged — the allocation pass skips completed objectives before touching any
field. -/
theorem allocateTasks_completed_unchanged (agents : List Agent) (objs : List Objective)
    (j : Nat) (o : Objective) (hj : objs[j]? = some o) (hc : o.completed = true) :
    (allocateTasks agents objs)[j]? = some o :=
  allocateGo_preserves_completed agents objs ∅ j o hj hc

/-- Witness for C10: a completed relay objective survives an allocation pass
with no agents verbatim. -/
theorem allocateTasks_completed_unchanged_witness :
    (allocateTasks []
      [Objective.relay ⟨"r1", ⟨0, 0, 0⟩, 10, true, 30, 1000, some "a", some 5⟩])[0]? =
      some (Objective.relay ⟨"r1", ⟨0, 0, 0⟩, 10, true, 30, 1000, some "a", some 5⟩) :=
  allocateTasks_completed_unchanged []
    [Objective.relay ⟨"r1", ⟨0, 0, 0⟩, 10, true, 30, 1000, some "a", some 5⟩]
    0 _ rfl rfl

/-! ### Completion-update facts -/

theorem stepObjective_id (agents : List Agent) (simTime : ℝ) (obj : Objective) :
    ((stepObjective agents simTime obj).1).id = obj.id := by
  cases obj with
  | inspect o =>
    simp only [stepObjective]
    split <;> rfl
  | relay o =>
    simp only [stepObjective]
    rcases ha : o.assignedAgentId with _ | aid
    · simp [ha, Objective.id]
    · simp only [ha]
      rcases hf : agents.find? (fun a => a.id == aid) with _ | ag
      · simp [hf, Objective.id]
      · simp only [hf]
        split
        · rcases hs : o.startTime with _ | st
          · simp [hs, Objective.id]
          · simp only [hs]
            split <;> simp [Objective.id]
        · simp [Objective.id]
  | zone o =>
    simp only [stepObjective]
    split <;> rfl

theorem stepObjective_completed_eq_flag (agents : List Agent) (simTime : ℝ) (obj : Objective)
    (h : obj.completed = false) :
    ((stepObjective agents simTime obj).1).completed = (stepObjective agents simTime obj).2 := by
  cases obj with
  | inspect o =>
    simp only [Objective.completed] at h
    simp only [stepObjective]
    split <;> simp [Objective.completed, h]
  | relay o =>
    simp only [Objective.completed] at h
    simp only [stepObjective]
    rcases ha : o.assignedAgentId with _ | aid
    · simp [ha, Objective.completed, h]
    · simp only [ha]
      rcases hf : agents.find? (fun a => a.id == aid) with _ | ag
      · simp [hf, Objective.completed, h]
      · simp only [hf]
        split
        · rcases hs : o.startTime with _ | st
          · simp [hs, Objective.completed, h]
          · simp only [hs]
            split <;> simp [Objective.completed, h]
        · simp [Objective.completed, h]
  | zone o =>
    simp only [Objective.completed] at h
    simp only [stepObjective]
    split <;> simp [Objective.completed, h]

/-- The updated list of `updateGo` is a pointwise map of the input. -/
def updFun (agents : List Agent) (simTime : ℝ) (obj : Objective) : Objective :=
  if obj.completed then obj else (stepObjective agents simTime obj).1

theorem updateGo_fst (agents : List Agent) (simTime : ℝ) :
    ∀ objs : List Objective,
      (updateGo agents simTime objs).1 = objs.map (updFun agents simTime) := by
  intro objs
  induction objs with
  | nil => rfl
  | cons hd tl ih =>
    by_cases h : hd.completed <;>
      simp [updateGo, updFun, h, ih]

theorem updFun_id (agents : List Agent) (simTime : ℝ) (obj : Objective) :
    (updFun agents simTime obj).id = obj.id := by
  unfold updFun
  split
  · rfl
  · exact stepObjective_id agents simTime obj

theorem updFun_completed_of_completed (agents : List Agent) (simTime : ℝ) (obj : Objective)
    (h : obj.completed = true) : updFun agents simTime obj = obj := by
  simp [updFun, h]

/-- Every emitted id is the id of some objective in the list. -/
theorem updateGo_ems_subset (agents : List Agent) (simTime : ℝ) :
    ∀ (objs : List Objective) (s : String), s ∈ (updateGo agents simTime objs).2 →
      s ∈ objs.map Objective.id := by
  intro objs
  induction objs with
  | nil => intro s hs; simp [updateGo] at hs
  | cons hd tl ih =>
    intro s hs
    simp only [updateGo, List.mem_append] at hs
    rcases hs with hs | hs
    · rcases h2 : hd.completed with _ | _
      · simp only [h2, Bool.false_eq_true, if_false] at hs
        rcases h3 : (stepObjective agents simTime hd).2 with _ | _
        · simp [h3] at hs
        · simp only [h3, if_true, List.mem_singleton] at hs
          subst hs
          simp [stepObjective_id]
      · simp [h2] at hs
    · exact List.mem_cons_of_mem _ (ih s hs)

/-- Count of a string in the emissions of one `updateGo` pass: exactly one when
the objective with that id transitions, zero otherwise (distinct ids assumed). -/
theorem updateGo_count (agents : List Agent) (simTime : ℝ) :
    ∀ (objs : List Objective) (j : Nat) (o : Objective),
      (objs.map Objective.id).Nodup → objs[j]? = some o →
      ((updateGo agents simTime objs).2.count o.id) =
        (if o.completed = false ∧ (updFun agents simTime o).completed = true then 1 else 0) := by
  intro objs
  induction objs with
  | nil => intro j o _ hj; simp at hj
  | cons hd tl ih =>
    intro j o hnd hj
    simp only [List.map_cons, List.nodup_cons] at hnd
    obtain ⟨hhd, htl⟩ := hnd
    have hemsub : ∀ s ∈ (updateGo agents simTime tl).2, s ∈ tl.map Objective.id :=
      fun s hs => updateGo_ems_subset agents simTime tl s hs
    cases j with
    | zero =>
      simp only [List.getElem?_cons_zero, Option.some_inj] at hj
      subst hj
      have htail0 : (updateGo agents simTime tl).2.count hd.id = 0 := by
        rw [List.count_eq_zero]
        intro hmem
        exact hhd (hemsub hd.id hmem)
      rcases h : hd.completed with _ | _
      · -- uncompleted head
        have hflag := stepObjective_completed_eq_flag agents simTime hd h
        simp only [updateGo, h, Bool.false_eq_true, if_false, List.count_append, htail0,
          Nat.add_zero, updFun]
        rcases h2 : (stepObjective agents simTime hd).2 with _ | _
        · simp [h2, hflag, h]
        · simp [h2, hflag, h, stepObjective_id, List.count_singleton]
      · -- completed head
        simp only [updateGo, h, if_true, List.count_append, htail0]
        simp [h]
    | succ k =>
      simp only [List.getElem?_cons_succ] at hj
      have hmemo : o.id ∈ tl.map Objective.id :=
        List.mem_map_of_mem Objective.id (List.getElem?_mem hj)
      have hne : hd.id ≠ o.id := fun he => hhd (he ▸ hmemo)
      have hheadcount :
          (if (if hd.completed then (hd, false) else stepObjective agents simTime hd).2
              then [(if hd.completed then (hd, false) else stepObjective agents simTime hd).1.id]
              else []).count o.id = 0 := by
        by_cases h2 : hd.completed = true
        · simp [h2]
        · simp only [h2, Bool.false_eq_true, if_false]
          rcases h3 : (stepObjective agents simTime hd).2 with _ | _
          · simp [h3]
          · simp [h3, List.count_cons, stepObjective_id, hne]
      simp only [updateGo, List.count_append, hheadcount, Nat.zero_add]
      exact ih k o htl hj

/-! ### Multi-call runs for completion monotonicity (C8) -/

/-- One external call into the task module: an allocation pass or a completion
update pass. -/
inductive TickOp where
  | alloc (agents : List Agent)
  | update (agents : List Agent) (simTime : ℝ)

/-- A sequence of calls, returning the final objectives and the per-update-call
log of newly-completed id sets. -/
def runOps (objs : List Objective) : List TickOp → List Objective × List (List String)
  | [] => (objs, [])
  | TickOp.alloc agents :: rest => runOps (allocateTasks agents objs) rest
  | TickOp.update agents t :: rest =>
    let u := updateObjectiveState objs agents t
    let r := runOps u.1 rest
    (r.1, u.2 :: r.2)

/-- Number of update calls whose newly-completed set contains `x`. -/
def callsEmitting (x : String) (log : List (List String)) : Nat :=
  log.countP (fun ids => decide (x ∈ ids))

theorem callsEmitting_nil (x : String) : callsEmitting x [] = 0 := rfl

theorem callsEmitting_cons (x : String) (ids : List String) (log : List (List String)) :
    callsEmitting x (ids :: log) =
      callsEmitting x log + (if x ∈ ids then 1 else 0) := by
  simp [callsEmitting, List.countP_cons]

theorem updateGo_map_id (agents : List Agent) (simTime : ℝ) (objs : List Objective) :
    (updateGo agents simTime objs).1.map Objective.id = objs.map Objective.id := by
  rw [updateGo_fst, List.map_map]
  exact List.map_congr_left (fun o _ => updFun_id agents simTime o)

theorem runOps_preserves_completed :
    ∀ (ops : List TickOp) (objs : List Objective) (j : Nat) (o : Objective),
      objs[j]? = some o → o.completed = true → (runOps objs ops).1[j]? = some o := by
  intro ops
  induction ops with
  | nil => intro objs j o hj _; simpa [runOps] using hj
  | cons op rest ih =>
    intro objs j o hj hc
    cases op with
    | alloc agents =>
      exact ih _ j o (allocateGo_preserves_completed agents objs ∅ j o hj hc) hc
    | update agents t =>
      have hupd : (updateObjectiveState objs agents t).1[j]? = some o := by
        rw [updateObjectiveState, updateGo_fst, List.getElem?_map, hj]
        simp [updFun_completed_of_completed agents t o hc]
      simpa [runOps] using ih _ j o hupd hc

theorem runOps_master :
    ∀ (ops : List TickOp) (objs : List Objective) (j : Nat) (o : Objective),
      (objs.map Objective.id).Nodup → objs[j]? = some o →
      ∃ o2, (runOps objs ops).1[j]? = some o2 ∧ o2.id = o.id ∧
        (o.completed = true → o2 = o ∧ callsEmitting o.id (runOps objs ops).2 = 0) ∧
        (o.completed = false →
          (o2.completed = false → callsEmitting o.id (runOps objs ops).2 = 0) ∧
          (o2.completed = true → callsEmitting o.id (runOps objs ops).2 = 1)) := by
  intro ops
  induction ops with
  | nil =>
    intro objs j o _ hj
    refine ⟨o, by simpa [runOps] using hj, rfl, fun _ => ⟨rfl, rfl⟩, fun hc => ⟨fun _ => rfl,
      fun hc2 => absurd hc2 (by simp [hc])⟩⟩
  | cons op rest ih =>
    intro objs j o hnd hj
    cases op with
    | alloc agents =>
      have hnd' : ((allocateTasks agents objs).map Objective.id).Nodup := by
        rw [allocateTasks, allocateGo_map_id]; exact hnd
      rcases Bool.eq_false_or_eq_true o.completed with hcomp | hcomp
      · -- completed: unchanged verbatim
        have hj1 := allocateGo_preserves_completed agents objs ∅ j o hj hcomp
        obtain ⟨o2, h1, h2, h3, _h4⟩ := ih (allocateTasks agents objs) j o hnd' hj1
        refine ⟨o2, by simpa [runOps] using h1, h2, ?_, ?_⟩
        · intro _
          obtain ⟨he, hcnt⟩ := h3 hcomp
          exact ⟨he, by simpa [runOps] using hcnt⟩
        · intro hc; rw [hc] at hcomp; cases hcomp
      · -- uncompleted: track the pointwise image
        obtain ⟨o1, hj1, hid1, hcomp1⟩ := allocateGo_pointwise agents objs ∅ j o hj
        obtain ⟨o2, h1, h2, _h3, h4⟩ := ih (allocateTasks agents objs) j o1 hnd' hj1
        rw [hcomp] at hcomp1
        refine ⟨o2, by simpa [runOps] using h1, by rw [h2, hid1], ?_, ?_⟩
        · intro hc; rw [hc] at hcomp; cases hcomp
        · intro _
          have h4' := h4 hcomp1
          rw [hid1] at h4'
          constructor
          · intro hc2; simpa [runOps] using h4'.1 hc2
          · intro hc2; simpa [runOps] using h4'.2 hc2
    | update agents t =>
      have hfst : (updateObjectiveState objs agents t).1 = objs.map (updFun agents t) :=
        updateGo_fst agents t objs
      have hnd' : ((updateObjectiveState objs agents t).1.map Objective.id).Nodup := by
        rw [updateObjectiveState, updateGo_map_id]; exact hnd
      have hj1 : (updateObjectiveState objs agents t).1[j]? = some (updFun agents t o) := by
        rw [hfst, List.getElem?_map, hj]; rfl
      have hcnt : (updateObjectiveState objs agents t).2.count o.id =
          (if o.completed = false ∧ (updFun agents t o).completed = true then 1 else 0) :=
        updateGo_count agents t objs j o hnd hj
      have hrun1 : (runOps objs (TickOp.update agents t :: rest)).1 =
          (runOps (updateObjectiveState objs agents t).1 rest).1 := rfl
      have hrun2 : (runOps objs (TickOp.update agents t :: rest)).2 =
          (updateObjectiveState objs agents t).2 ::
            (runOps (updateObjectiveState objs agents t).1 rest).2 := rfl
      rcases Bool.eq_false_or_eq_true o.completed with hcomp | hcomp
      · -- already completed: untouched, never emitted
        have hfix : updFun agents t o = o := updFun_completed_of_completed agents t o hcomp
        rw [hfix] at hj1
        obtain ⟨o2, h1, h2, h3, _h4⟩ := ih _ j o hnd' hj1
        have hc0 : (updateObjectiveState objs agents t).2.count o.id = 0 := by
          rw [hcnt, hcomp]; simp
        have hnotmem : o.id ∉ (updateObjectiveState objs agents t).2 := by
          intro hmem
          have := List.count_pos_iff.mpr hmem
          omega
        refine ⟨o2, by rw [hrun1]; exact h1, h2, ?_, ?_⟩
        · intro _
          obtain ⟨he, hcnt0⟩ := h3 hcomp
          refine ⟨he, ?_⟩
          rw [hrun2, callsEmitting_cons, if_neg hnotmem, hcnt0]
        · intro hc; rw [hc] at hcomp; cases hcomp
      · -- uncompleted before this update call
        obtain ⟨o2, h1, h2, h3, h4⟩ := ih _ j (updFun agents t o) hnd' hj1
        have hido1 : (updFun agents t o).id = o.id := updFun_id agents t o
        rcases Bool.eq_false_or_eq_true (updFun agents t o).completed with htr | htr
        · -- this call completes the objective
          have hc1 : (updateObjectiveState objs agents t).2.count o.id = 1 := by
            rw [hcnt, hcomp, htr]; simp
          have hmem : o.id ∈ (updateObjectiveState objs agents t).2 := by
            rw [← List.count_pos_iff, hc1]; omega
          obtain ⟨he, hcnt0⟩ := h3 htr
          rw [hido1] at hcnt0
          refine ⟨o2, by rw [hrun1]; exact h1, by rw [h2, hido1], ?_, ?_⟩
          · intro hc; rw [hc] at hcomp; cases hcomp
          · intro _
            constructor
            · intro hc2
              rw [he, htr] at hc2; cases hc2
            · intro _
              rw [hrun2, callsEmitting_cons, if_pos hmem, hcnt0]
        · -- no transition in this call
          have hc0 : (updateObjectiveState objs agents t).2.count o.id = 0 := by
            rw [hcnt, hcomp, htr]; simp
          have hnotmem : o.id ∉ (updateObjectiveState objs agents t).2 := by
            intro hmem
            have := List.count_pos_iff.mpr hmem
            omega
          have h4' := h4 htr
          rw [hido1] at h4'
          refine ⟨o2, by rw [hrun1]; exact h1, by rw [h2, hido1], ?_, ?_⟩
          · intro hc; rw [hc] at hcomp; cases hcomp
          · intro _
            constructor
            · intro hc2
              rw [hrun2, callsEmitting_cons, if_neg hnotmem, h4'.1 hc2]
            · intro hc2
              rw [hrun2, callsEmitting_cons, if_neg hnotmem, h4'.2 hc2]

/-- C8: across any interleaving of `allocateTasks` and `updateObjectiveState`
calls, a completed objective stays completed (and in fact entirely unchanged),
and — for distinct objective ids — an objective that transitions to completed
has its id emitted by exactly one `updateObjectiveState` call. -/
theorem objective_completed_monotone_emitted_once (ops : List TickOp) (objs : List Objective) :
    (∀ (j : Nat) (o : Objective), objs[j]? = some o → o.completed = true →
      (runOps objs ops).1[j]? = some o) ∧
    ((objs.map Objective.id).Nodup →
      ∀ (j : Nat) (o o2 : Objective), objs[j]? = some o → o.completed = false →
      (runOps objs ops).1[j]? = some o2 → o2.completed = true →
      callsEmitting o.id (runOps objs ops).2 = 1) := by
  constructor
  · intro j o hj hc
    exact runOps_preserves_completed ops objs j o hj hc
  · intro hnd j o o2 hj hc hj2 hc2
    obtain ⟨o2', h1, _h2, _h3, h4⟩ := runOps_master ops objs j o hnd hj
    rw [h1] at hj2
    injection hj2 with he
    subst he
    exact (h4 hc).2 hc2

/-- Witness for C8: a completed inspect objective survives an allocation call. -/
theorem objective_completed_monotone_emitted_once_witness :
    (runOps [Objective.inspect ⟨"i1", ⟨0, 0, 0⟩, 5, true, 100, none⟩]
      [TickOp.alloc []]).1[0]? =
      some (Objective.inspect ⟨"i1", ⟨0, 0, 0⟩, 5, true, 100, none⟩) :=
  (objective_completed_monotone_emitted_once [TickOp.alloc []]
    [Objective.inspect ⟨"i1", ⟨0, 0, 0⟩, 5, true, 100, none⟩]).1 0 _ rfl rfl

/-! ### RelayNode hold state machine (C3) -/

/-- The four cases of one `updateObjectiveState` call on an uncompleted
RelayNode objective whose assigned agent exists. -/
theorem relayUpdate_cases (agents : List Agent) (time : ℝ) (o : RelayNodeObjective)
    (aid : String) (ag : Agent) (hc : o.completed = false)
    (ha : o.assignedAgentId = some aid)
    (hf : agents.find? (fun a => a.id == aid) = some ag) :
    (o.startTime = none → distance ag.state.position o.position ≤ o.threshold →
      updateObjectiveState [Objective.relay o] agents time =
        ([Objective.relay { o with startTime := some time }], [])) ∧
    (∀ s, o.startTime = some s → distance ag.state.position o.position ≤ o.threshold →
      time - s ≥ o.holdDuration →
      updateObjectiveState [Objective.relay o] agents time =
        ([Objective.relay { o with completed := true }], [o.id])) ∧
    (∀ s, o.startTime = some s → distance ag.state.position o.position ≤ o.threshold →
      time - s < o.holdDuration →
      updateObjectiveState [Objective.relay o] agents time = ([Objective.relay o], [])) ∧
    (distance ag.state.position o.position > o.threshold →
      updateObjectiveState [Objective.relay o] agents time =
        ([Objective.relay { o with startTime := none }], [])) := by
  have key : updateObjectiveState [Objective.relay o] agents time =
      ([(stepObjective agents time (Objective.relay o)).1],
       if (stepObjective agents time (Objective.relay o)).2 = true
       then [(stepObjective agents time (Objective.relay o)).1.id] else []) := by
    simp [updateObjectiveState, updateGo, Objective.completed, hc]
  refine ⟨fun hst hd => ?_, fun s hst hd hdur => ?_, fun s hst hd hdur => ?_, fun hd => ?_⟩
  · rw [key]
    simp only [stepObjective, ha, hf, if_pos hd, hst]
    simp
  · rw [key]
    simp only [stepObjective, ha, hf, if_pos hd, hst, if_pos hdur]
    simp [Objective.id]
  · rw [key]
    simp only [stepObjective, ha, hf, if_pos hd, hst, if_neg (not_le.mpr hdur)]
    simp
  · rw [key]
    simp only [stepObjective, ha, hf, if_neg (not_le.mpr hd)]
    simp

/-- Concrete RelayNode objective for the spec's timed scenarios:
threshold 1000 m, hold duration 30 s, assigned to agent `"agent"`. -/
def relayScn : RelayNodeObjective :=
  ⟨"relay", ⟨0, 0, 0⟩, 10, false, 30, 1000, some "agent", none⟩

/-- Scenario A agent track: outside (2000 m) until `t = 9`, inside (500 m)
from `t = 10` on. -/
def agentPosScnA (t : Nat) : Vec3 := if 10 ≤ t then ⟨500, 0, 0⟩ else ⟨2000, 0, 0⟩

def agentScnA (t : Nat) : Agent := ⟨"agent", ⟨agentPosScnA t, ⟨0, 0, 0⟩⟩⟩

/-- Scenario B agent track: enters at `t = 10`, exits at `t = 25`, re-enters at
`t = 30`. -/
def agentPosScnB (t : Nat) : Vec3 :=
  if t < 10 then ⟨2000, 0, 0⟩
  else if t < 25 then ⟨500, 0, 0⟩
  else if t < 30 then ⟨2000, 0, 0⟩
  else ⟨500, 0, 0⟩

def agentScnB (t : Nat) : Agent := ⟨"agent", ⟨agentPosScnB t, ⟨0, 0, 0⟩⟩⟩

/-- Scenario A run: one `updateObjectiveState` call per second, at integer
simulation times `0, 1, 2, …`. -/
def runRelayA : Nat → Objective
  | 0 => ((updateObjectiveState [Objective.relay relayScn] [agentScnA 0] 0).1).headD
      (Objective.relay relayScn)
  | t + 1 => ((updateObjectiveState [runRelayA t] [agentScnA (t + 1)]
      ((t + 1 : Nat) : ℝ)).1).headD (runRelayA t)

/-- Scenario B run. -/
def runRelayB : Nat → Objective
  | 0 => ((updateObjectiveState [Objective.relay relayScn] [agentScnB 0] 0).1).headD
      (Objective.relay relayScn)
  | t + 1 => ((updateObjectiveState [runRelayB t] [agentScnB (t + 1)]
      ((t + 1 : Nat) : ℝ)).1).headD (runRelayB t)

theorem dist500 : distance ⟨500, 0, 0⟩ ⟨0, 0, 0⟩ = 500 := by
  show Real.sqrt _ = _
  rw [show ((0:ℝ) - 500) * ((0:ℝ) - 500) + ((0:ℝ) - 0) * ((0:ℝ) - 0) +
      ((0:ℝ) - 0) * ((0:ℝ) - 0) = 500 ^ 2 by norm_num]
  exact Real.sqrt_sq (by norm_num)

theorem dist2000 : distance ⟨2000, 0, 0⟩ ⟨0, 0, 0⟩ = 2000 := by
  show Real.sqrt _ = _
  rw [show ((0:ℝ) - 2000) * ((0:ℝ) - 2000) + ((0:ℝ) - 0) * ((0:ℝ) - 0) +
      ((0:ℝ) - 0) * ((0:ℝ) - 0) = 2000 ^ 2 by norm_num]
  exact Real.sqrt_sq (by norm_num)

/-- One far tick on a relay objective of the scenario family. -/
theorem tickFar (o : RelayNodeObjective) (ag : Agent) (time : ℝ)
    (hc : o.completed = false) (ha : o.assignedAgentId = some "agent")
    (hid : ag.id = "agent") (hdist : distance ag.state.position o.position = 2000)
    (hth : o.threshold = 1000) :
    (updateObjectiveState [Objective.relay o] [ag] time).1 =
      [Objective.relay { o with startTime := none }] := by
  have hf : [ag].find? (fun a => a.id == "agent") = some ag := by
    simp [List.find?, hid]
  have h := (relayUpdate_cases [ag] time o "agent" ag hc ha hf).2.2.2
    (by rw [hdist, hth]; norm_num)
  rw [h]

/-- One near tick with no hold in progress: the hold-start timestamp is set. -/
theorem tickNearFirst (o : RelayNodeObjective) (ag : Agent) (time : ℝ)
    (hc : o.completed = false) (ha : o.assignedAgentId = some "agent")
    (hid : ag.id = "agent") (hst : o.startTime = none)
    (hdist : distance ag.state.position o.position = 500) (hth : o.threshold = 1000) :
    (updateObjectiveState [Objective.relay o] [ag] time).1 =
      [Objective.relay { o with startTime := some time }] := by
  have hf : [ag].find? (fun a => a.id == "agent") = some ag := by
    simp [List.find?, hid]
  have h := (relayUpdate_cases [ag] time o "agent" ag hc ha hf).1 hst
    (by rw [hdist, hth]; norm_num)
  rw [h]

/-- One near tick during an unexpired hold: no change. -/
theorem tickNearHold (o : RelayNodeObjective) (ag : Agent) (time s : ℝ)
    (hc : o.completed = false) (ha : o.assignedAgentId = some "agent")
    (hid : ag.id = "agent") (hst : o.startTime = some s)
    (hdist : distance ag.state.position o.position = 500) (hth : o.threshold = 1000)
    (hdur : time - s < o.holdDuration) :
    (updateObjectiveState [Objective.relay o] [ag] time).1 = [Objective.relay o] := by
  have hf : [ag].find? (fun a => a.id == "agent") = some ag := by
    simp [List.find?, hid]
  have h := (relayUpdate_cases [ag] time o "agent" ag hc ha hf).2.2.1 s hst
    (by rw [hdist, hth]; norm_num) hdur
  rw [h]

/-- One near tick with the hold expired: the objective completes. -/
theorem tickNearComplete (o : RelayNodeObjective) (ag : Agent) (time s : ℝ)
    (hc : o.completed = false) (ha : o.assignedAgentId = some "agent")
    (hid : ag.id = "agent") (hst : o.startTime = some s)
    (hdist : distance ag.state.position o.position = 500) (hth : o.threshold = 1000)
    (hdur : time - s ≥ o.holdDuration) :
    (updateObjectiveState [Objective.relay o] [ag] time).1 =
      [Objective.relay { o with completed := true }] := by
  have hf : [ag].find? (fun a => a.id == "agent") = some ag := by
    simp [List.find?, hid]
  have h := (relayUpdate_cases [ag] time o "agent" ag hc ha hf).2.1 s hst
    (by rw [hdist, hth]; norm_num) hdur
  rw [h]

theorem posA_far {t : Nat} (ht : t < 10) : (agentScnA t).state.position = ⟨2000, 0, 0⟩ := by
  have h : ¬ 10 ≤ t := by omega
  simp [agentScnA, agentPosScnA, h]

theorem posA_near {t : Nat} (ht : 10 ≤ t) : (agentScnA t).state.position = ⟨500, 0, 0⟩ := by
  simp [agentScnA, agentPosScnA, ht]

theorem posB_far1 {t : Nat} (ht : t < 10) : (agentScnB t).state.position = ⟨2000, 0, 0⟩ := by
  simp [agentScnB, agentPosScnB, ht]

theorem posB_near1 {t : Nat} (h1 : 10 ≤ t) (h2 : t < 25) :
    (agentScnB t).state.position = ⟨500, 0, 0⟩ := by
  have h : ¬ t < 10 := by omega
  simp [agentScnB, agentPosScnB, h, h2]

theorem posB_far2 {t : Nat} (h1 : 25 ≤ t) (h2 : t < 30) :
    (agentScnB t).state.position = ⟨2000, 0, 0⟩ := by
  have ha : ¬ t < 10 := by omega
  have hb : ¬ t < 25 := by omega
  simp [agentScnB, agentPosScnB, ha, hb, h2]

theorem posB_near2 {t : Nat} (h1 : 30 ≤ t) : (agentScnB t).state.position = ⟨500, 0, 0⟩ := by
  have ha : ¬ t < 10 := by omega
  have hb : ¬ t < 25 := by omega
  have hc : ¬ t < 30 := by omega
  simp [agentScnB, agentPosScnB, ha, hb, hc]

theorem runRelayA_phase0 : ∀ t, t ≤ 9 → runRelayA t = Objective.relay relayScn := by
  intro t
  induction t with
  | zero =>
    intro _
    show ((updateObjectiveState [Objective.relay relayScn] [agentScnA 0] 0).1).headD
      (Objective.relay relayScn) = _
    rw [tickFar relayScn (agentScnA 0) 0 rfl rfl rfl
      (by rw [posA_far (by omega)]; exact dist2000) rfl]
    rfl
  | succ n ih =>
    intro h
    show ((updateObjectiveState [runRelayA n] [agentScnA (n + 1)]
      ((n + 1 : Nat) : ℝ)).1).headD (runRelayA n) = _
    rw [ih (by omega)]
    rw [tickFar relayScn (agentScnA (n + 1)) _ rfl rfl rfl
      (by rw [posA_far (by omega)]; exact dist2000) rfl]
    rfl

theorem runRelayA_phase1 : ∀ t, 10 ≤ t → t ≤ 39 →
    runRelayA t = Objective.relay { relayScn with startTime := some 10 } := by
  intro t
  induction t with
  | zero => intro h _; omega
  | succ n ih =>
    intro h10 h39
    show ((updateObjectiveState [runRelayA n] [agentScnA (n + 1)]
      ((n + 1 : Nat) : ℝ)).1).headD (runRelayA n) = _
    by_cases hn : 10 ≤ n
    · rw [ih hn (by omega)]
      rw [tickNearHold { relayScn with startTime := some 10 } (agentScnA (n + 1)) _ 10
        rfl rfl rfl rfl (by rw [posA_near (by omega)]; exact dist500) rfl
        (by
          show ((n + 1 : Nat) : ℝ) - 10 < (30 : ℝ)
          have hcast : ((n + 1 : Nat) : ℝ) ≤ 39 := by exact_mod_cast h39
          linarith)]
      rfl
    · have hn9 : n = 9 := by omega
      subst hn9
      rw [runRelayA_phase0 9 (by omega)]
      rw [tickNearFirst relayScn (agentScnA 10) _ rfl rfl rfl rfl
        (by rw [posA_near (by omega)]; exact dist500) rfl]
      norm_num

theorem runRelayA_completes :
    (∀ t, t < 40 → (runRelayA t).completed = false) ∧ (runRelayA 40).completed = true := by
  constructor
  · intro t ht
    by_cases h : t ≤ 9
    · rw [runRelayA_phase0 t h]; rfl
    · rw [runRelayA_phase1 t (by omega) (by omega)]; rfl
  · show (((updateObjectiveState [runRelayA 39] [agentScnA 40]
      ((40 : Nat) : ℝ)).1).headD (runRelayA 39)).completed = true
    rw [runRelayA_phase1 39 (by omega) (by omega)]
    rw [tickNearComplete { relayScn with startTime := some 10 } (agentScnA 40) _ 10
      rfl rfl rfl rfl (by rw [posA_near (by omega)]; exact dist500) rfl
      (by show ((40 : Nat) : ℝ) - 10 ≥ (30 : ℝ); push_cast; norm_num)]
    rfl

theorem runRelayB_phase0 : ∀ t, t ≤ 9 → runRelayB t = Objective.relay relayScn := by
  intro t
  induction t with
  | zero =>
    intro _
    show ((updateObjectiveState [Objective.relay relayScn] [agentScnB 0] 0).1).headD
      (Objective.relay relayScn) = _
    rw [tickFar relayScn (agentScnB 0) 0 rfl rfl rfl
      (by rw [posB_far1 (by omega)]; exact dist2000) rfl]
    rfl
  | succ n ih =>
    intro h
    show ((updateObjectiveState [runRelayB n] [agentScnB (n + 1)]
      ((n + 1 : Nat) : ℝ)).1).headD (runRelayB n) = _
    rw [ih (by omega)]
    rw [tickFar relayScn (agentScnB (n + 1)) _ rfl rfl rfl
      (by rw [posB_far1 (by omega)]; exact dist2000) rfl]
    rfl

theorem runRelayB_phase1 : ∀ t, 10 ≤ t → t ≤ 24 →
    runRelayB t = Objective.relay { relayScn with startTime := some 10 } := by
  intro t
  induction t with
  | zero => intro h _; omega
  | succ n ih =>
    intro h10 h24
    show ((updateObjectiveState [runRelayB n] [agentScnB (n + 1)]
      ((n + 1 : Nat) : ℝ)).1).headD (runRelayB n) = _
    by_cases hn : 10 ≤ n
    · rw [ih hn (by omega)]
      rw [tickNearHold { relayScn with startTime := some 10 } (agentScnB (n + 1)) _ 10
        rfl rfl rfl rfl (by rw [posB_near1 (by omega) (by omega)]; exact dist500) rfl
        (by
          show ((n + 1 : Nat) : ℝ) - 10 < (30 : ℝ)
          have hcast : ((n + 1 : Nat) : ℝ) ≤ 24 := by exact_mod_cast h24
          linarith)]
      rfl
    · have hn9 : n = 9 := by omega
      subst hn9
      rw [runRelayB_phase0 9 (by omega)]
      rw [tickNearFirst relayScn (agentScnB 10) _ rfl rfl rfl rfl
        (by rw [posB_near1 (by omega) (by omega)]; exact dist500) rfl]
      norm_num

theorem runRelayB_phase2 : ∀ t, 25 ≤ t → t ≤ 29 →
    runRelayB t = Objective.relay relayScn := by
  intro t
  induction t with
  | zero => intro h _; omega
  | succ n ih =>
    intro h25 h29
    show ((updateObjectiveState [runRelayB n] [agentScnB (n + 1)]
      ((n + 1 : Nat) : ℝ)).1).headD (runRelayB n) = _
    by_cases hn : 25 ≤ n
    · rw [ih hn (by omega)]
      rw [tickFar relayScn (agentScnB (n + 1)) _ rfl rfl rfl
        (by rw [posB_far2 (by omega) (by omega)]; exact dist2000) rfl]
      rfl
    · have hn24 : n = 24 := by omega
      subst hn24
      rw [runRelayB_phase1 24 (by omega) (by omega)]
      rw [tickFar { relayScn with startTime := some 10 } (agentScnB 25) _ rfl rfl rfl
        (by rw [posB_far2 (by omega) (by omega)]; exact dist2000) rfl]
      rfl

theorem runRelayB_phase3 : ∀ t, 30 ≤ t → t ≤ 59 →
    runRelayB t = Objective.relay { relayScn with startTime := some 30 } := by
  intro t
  induction t with
  | zero => intro h _; omega
  | succ n ih =>
    intro h30 h59
    show ((updateObjectiveState [runRelayB n] [agentScnB (n + 1)]
      ((n + 1 : Nat) : ℝ)).1).headD (runRelayB n) = _
    by_cases hn : 30 ≤ n
    · rw [ih hn (by omega)]
      rw [tickNearHold { relayScn with startTime := some 30 } (agentScnB (n + 1)) _ 30
        rfl rfl rfl rfl (by rw [posB_near2 (by omega)]; exact dist500) rfl
        (by
          show ((n + 1 : Nat) : ℝ) - 30 < (30 : ℝ)
          have hcast : ((n + 1 : Nat) : ℝ) ≤ 59 := by exact_mod_cast h59
          linarith)]
      rfl
    · have hn29 : n = 29 := by omega
      subst hn29
      rw [runRelayB_phase2 29 (by omega) (by omega)]
      rw [tickNearFirst relayScn (agentScnB 30) _ rfl rfl rfl rfl
        (by rw [posB_near2 (by omega)]; exact dist500) rfl]
      norm_num

theorem runRelayB_completes :
    (∀ t, t < 60 → (runRelayB t).completed = false) ∧ (runRelayB 60).completed = true := by
  constructor
  · intro t ht
    by_cases h0 : t ≤ 9
    · rw [runRelayB_phase0 t h0]; rfl
    · by_cases h1 : t ≤ 24
      · rw [runRelayB_phase1 t (by omega) h1]; rfl
      · by_cases h2 : t ≤ 29
        · rw [runRelayB_phase2 t (by omega) h2]; rfl
        · rw [runRelayB_phase3 t (by omega) (by omega)]; rfl
  · show (((updateObjectiveState [runRelayB 59] [agentScnB 60]
      ((60 : Nat) : ℝ)).1).headD (runRelayB 59)).completed = true
    rw [runRelayB_phase3 59 (by omega) (by omega)]
    rw [tickNearComplete { relayScn with startTime := some 30 } (agentScnB 60) _ 30
      rfl rfl rfl rfl (by rw [posB_near2 (by omega)]; exact dist500) rfl
      (by show ((60 : Nat) : ℝ) - 30 ≥ (30 : ℝ); push_cast; norm_num)]
    rfl

/-- C3: one `updateObjectiveState` call on an uncompleted RelayNode objective
whose assigned agent exists (i) records the hold-start timestamp `simTime` on
the first in-threshold tick, (ii) completes exactly when a later tick finds the
agent still within threshold with `simTime − holdStart ≥ holdDuration`,
(iii) leaves an unexpired hold unchanged, and (iv) resets the timestamp on any
out-of-threshold tick; with threshold 1000 m and hold 30 s, an agent entering
at `t = 10 s` and remaining completes at `t = 40 s`, and one that exits at
`t = 25 s` and re-enters at `t = 30 s` completes at `t = 60 s`. -/
theorem relayNode_hold_state_machine :
    (∀ (agents : List Agent) (time : ℝ) (o : RelayNodeObjective) (aid : String) (ag : Agent),
      o.completed = false → o.assignedAgentId = some aid →
      agents.find? (fun a => a.id == aid) = some ag →
      ((o.startTime = none → distance ag.state.position o.position ≤ o.threshold →
        updateObjectiveState [Objective.relay o] agents time =
          ([Objective.relay { o with startTime := some time }], [])) ∧
       (∀ s, o.startTime = some s → distance ag.state.position o.position ≤ o.threshold →
        time - s ≥ o.holdDuration →
        updateObjectiveState [Objective.relay o] agents time =
          ([Objective.relay { o with completed := true }], [o.id])) ∧
       (∀ s, o.startTime = some s → distance ag.state.position o.position ≤ o.threshold →
        time - s < o.holdDuration →
        updateObjectiveState [Objective.relay o] agents time = ([Objective.relay o], [])) ∧
       (distance ag.state.position o.position > o.threshold →
        updateObjectiveState [Objective.relay o] agents time =
          ([Objective.relay { o with startTime := none }], [])))) ∧
    ((∀ t, t < 40 → (runRelayA t).completed = false) ∧ (runRelayA 40).completed = true) ∧
    ((∀ t, t < 60 → (runRelayB t).completed = false) ∧ (runRelayB 60).completed = true) :=
  ⟨fun agents time o aid ag hc ha hf => relayUpdate_cases agents time o aid ag hc ha hf,
   runRelayA_completes, runRelayB_completes⟩

/-- Witness for C3: the concrete first tick of scenario A (agent still 2000 m
out) resets the timer and completes nothing. -/
theorem relayNode_hold_state_machine_witness :
    updateObjectiveState [Objective.relay relayScn] [agentScnA 0] 0 =
      ([Objective.relay { relayScn with startTime := none }], []) := by
  have hd : distance (agentScnA 0).state.position relayScn.position = 2000 := by
    rw [posA_far (by omega)]; exact dist2000
  exact (relayNode_hold_state_machine.1 [agentScnA 0] 0 relayScn "agent" (agentScnA 0)
    rfl rfl (by simp [List.find?, agentScnA])).2.2.2 (by rw [hd]; norm_num [relayScn])

/-! ### Objective steering analysis (C7) -/

/-- An objective the agent can be steered toward by the loop: any InspectPoint,
or a RelayNode/Zone explicitly assigned to the agent. -/
def eligibleObjective (agent : Agent) : Objective → Prop
  | .inspect _ => True
  | .relay o => o.assignedAgentId = some agent.id
  | .zone o => agent.id ∈ o.assignedAgentIds

/-- Discriminates InspectPoint objectives. -/
def isInspect : Objective → Prop
  | .inspect _ => True
  | .relay _ => False
  | .zone _ => False

theorem selectTarget_cons_completed (agent : Agent) (target : Option Objective)
    (obj : Objective) (rest : List Objective) (hc : obj.completed = true) :
    selectTarget agent target (obj :: rest) = selectTarget agent target rest := by
  simp only [selectTarget, if_pos hc]

theorem selectTarget_cons_inspect_none (agent : Agent) (o : InspectPointObjective)
    (rest : List Objective) (hc : (Objective.inspect o).completed = false) :
    selectTarget agent none (Objective.inspect o :: rest) =
      selectTarget agent (some (Objective.inspect o)) rest := by
  simp [selectTarget, hc]

theorem selectTarget_cons_inspect_some_lt (agent : Agent) (o : InspectPointObjective)
    (t : Objective) (rest : List Objective) (hc : (Objective.inspect o).completed = false)
    (hlt : distance agent.state.position o.position <
      distance agent.state.position t.position) :
    selectTarget agent (some t) (Objective.inspect o :: rest) =
      selectTarget agent (some (Objective.inspect o)) rest := by
  simp [selectTarget, hc, hlt]

theorem selectTarget_cons_inspect_some_ge (agent : Agent) (o : InspectPointObjective)
    (t : Objective) (rest : List Objective) (hc : (Objective.inspect o).completed = false)
    (hge : ¬ distance agent.state.position o.position <
      distance agent.state.position t.position) :
    selectTarget agent (some t) (Objective.inspect o :: rest) =
      selectTarget agent (some t) rest := by
  simp [selectTarget, hc, hge]

theorem selectTarget_cons_relay_assigned (agent : Agent) (o : RelayNodeObjective)
    (target : Option Objective) (rest : List Objective)
    (hc : (Objective.relay o).completed = false) (hr : o.assignedAgentId = some agent.id) :
    selectTarget agent target (Objective.relay o :: rest) =
      selectTarget agent (some (Objective.relay o)) rest := by
  simp [selectTarget, hc, hr]

theorem selectTarget_cons_relay_not (agent : Agent) (o : RelayNodeObjective)
    (target : Option Objective) (rest : List Objective)
    (hc : (Objective.relay o).completed = false) (hr : ¬ o.assignedAgentId = some agent.id) :
    selectTarget agent target (Objective.relay o :: rest) =
      selectTarget agent target rest := by
  simp [selectTarget, hc, hr]

theorem selectTarget_cons_zone_mem (agent : Agent) (o : HoldFormationZoneObjective)
    (target : Option Objective) (rest : List Objective)
    (hc : (Objective.zone o).completed = false) (hz : agent.id ∈ o.assignedAgentIds) :
    selectTarget agent target (Objective.zone o :: rest) =
      selectTarget agent (some (Objective.zone o)) rest := by
  simp [selectTarget, hc, hz]

theorem selectTarget_cons_zone_not (agent : Agent) (o : HoldFormationZoneObjective)
    (target : Option Objective) (rest : List Objective)
    (hc : (Objective.zone o).completed = false) (hz : ¬ agent.id ∈ o.assignedAgentIds) :
    selectTarget agent target (Objective.zone o :: rest) =
      selectTarget agent target rest := by
  simp [selectTarget, hc, hz]

theorem selectTarget_some_of_some (agent : Agent) :
    ∀ (objs : List Objective) (t : Objective),
      ∃ r, selectTarget agent (some t) objs = some r := by
  intro objs
  induction objs with
  | nil => intro t; exact ⟨t, rfl⟩
  | cons obj rest ih =>
    intro t
    by_cases hc : obj.completed = true
    · rw [selectTarget_cons_completed agent (some t) obj rest hc]
      exact ih t
    · have hcf : obj.completed = false := by rwa [Bool.not_eq_true] at hc
      cases obj with
      | inspect o =>
        by_cases hlt : distance agent.state.position o.position <
            distance agent.state.position t.position
        · rw [selectTarget_cons_inspect_some_lt agent o t rest hcf hlt]
          exact ih _
        · rw [selectTarget_cons_inspect_some_ge agent o t rest hcf hlt]
          exact ih t
      | relay o =>
        by_cases hr : o.assignedAgentId = some agent.id
        · rw [selectTarget_cons_relay_assigned agent o (some t) rest hcf hr]
          exact ih _
        · rw [selectTarget_cons_relay_not agent o (some t) rest hcf hr]
          exact ih t
      | zone o =>
        by_cases hz : agent.id ∈ o.assignedAgentIds
        · rw [selectTarget_cons_zone_mem agent o (some t) rest hcf hz]
          exact ih _
        · rw [selectTarget_cons_zone_not agent o (some t) rest hcf hz]
          exact ih t

theorem selectTarget_none_sound (agent : Agent) :
    ∀ (objs : List Objective) (target : Option Objective),
      selectTarget agent target objs = none →
      target = none ∧ ∀ o ∈ objs, o.completed = false → ¬ eligibleObjective agent o := by
  intro objs
  induction objs with
  | nil =>
    intro target h
    exact ⟨h, by simp⟩
  | cons obj rest ih =>
    intro target h
    by_cases hc : obj.completed = true
    · rw [selectTarget_cons_completed agent target obj rest hc] at h
      obtain ⟨ht, hall⟩ := ih target h
      refine ⟨ht, fun o ho hoc => ?_⟩
      rcases List.mem_cons.mp ho with rfl | ho2
      · rw [hc] at hoc; cases hoc
      · exact hall o ho2 hoc
    · have hcf : obj.completed = false := by rwa [Bool.not_eq_true] at hc
      cases obj with
      | inspect o =>
        exfalso
        rcases htar : target with _ | t
        · subst htar
          rw [selectTarget_cons_inspect_none agent o rest hcf] at h
          obtain ⟨r, hr⟩ := selectTarget_some_of_some agent rest (Objective.inspect o)
          rw [hr] at h; cases h
        · subst htar
          by_cases hlt : distance agent.state.position o.position <
              distance agent.state.position t.position
          · rw [selectTarget_cons_inspect_some_lt agent o t rest hcf hlt] at h
            obtain ⟨r, hr⟩ := selectTarget_some_of_some agent rest (Objective.inspect o)
            rw [hr] at h; cases h
          · rw [selectTarget_cons_inspect_some_ge agent o t rest hcf hlt] at h
            obtain ⟨r, hr⟩ := selectTarget_some_of_some agent rest t
            rw [hr] at h; cases h
      | relay o =>
        by_cases hr : o.assignedAgentId = some agent.id
        · exfalso
          rw [selectTarget_cons_relay_assigned agent o target rest hcf hr] at h
          obtain ⟨r, hrr⟩ := selectTarget_some_of_some agent rest (Objective.relay o)
          rw [hrr] at h; cases h
        · rw [selectTarget_cons_relay_not agent o target rest hcf hr] at h
          obtain ⟨ht, hall⟩ := ih target h
          refine ⟨ht, fun o2 ho hoc => ?_⟩
          rcases List.mem_cons.mp ho with rfl | ho2
          · exact hr
          · exact hall o2 ho2 hoc
      | zone o =>
        by_cases hz : agent.id ∈ o.assignedAgentIds
        · exfalso
          rw [selectTarget_cons_zone_mem agent o target rest hcf hz] at h
          obtain ⟨r, hrr⟩ := selectTarget_some_of_some agent rest (Objective.zone o)
          rw [hrr] at h; cases h
        · rw [selectTarget_cons_zone_not agent o target rest hcf hz] at h
          obtain ⟨ht, hall⟩ := ih target h
          refine ⟨ht, fun o2 ho hoc => ?_⟩
          rcases List.mem_cons.mp ho with rfl | ho2
          · exact hz
          · exact hall o2 ho2 hoc

theorem selectTarget_some_sound (agent : Agent) :
    ∀ (objs : List Objective) (target : Option Objective) (r : Objective),
      selectTarget agent target objs = some r →
      target = some r ∨ (r ∈ objs ∧ r.completed = false ∧ eligibleObjective agent r) := by
  intro objs
  induction objs with
  | nil => intro target r h; exact Or.inl h
  | cons obj rest ih =>
    intro target r h
    have hkeep : selectTarget agent target rest = some r →
        target = some r ∨ (r ∈ obj :: rest ∧ r.completed = false ∧
          eligibleObjective agent r) := by
      intro hh
      rcases ih target r hh with h1 | ⟨h1, h2, h3⟩
      · exact Or.inl h1
      · exact Or.inr ⟨List.mem_cons_of_mem _ h1, h2, h3⟩
    by_cases hc : obj.completed = true
    · rw [selectTarget_cons_completed agent target obj rest hc] at h
      exact hkeep h
    · have hcf : obj.completed = false := by rwa [Bool.not_eq_true] at hc
      have hswap : eligibleObjective agent obj → selectTarget agent (some obj) rest = some r →
          target = some r ∨ (r ∈ obj :: rest ∧ r.completed = false ∧
            eligibleObjective agent r) := by
        intro hel hh
        rcases ih (some obj) r hh with h1 | ⟨h1, h2, h3⟩
        · injection h1 with h1
          subst h1
          exact Or.inr ⟨List.mem_cons_self _ _, hcf, hel⟩
        · exact Or.inr ⟨List.mem_cons_of_mem _ h1, h2, h3⟩
      cases obj with
      | inspect o =>
        rcases htar : target with _ | t
        · subst htar
          rw [selectTarget_cons_inspect_none agent o rest hcf] at h
          exact hswap trivial h
        · subst htar
          by_cases hlt : distance agent.state.position o.position <
              distance agent.state.position t.position
          · rw [selectTarget_cons_inspect_some_lt agent o t rest hcf hlt] at h
            exact hswap trivial h
          · rw [selectTarget_cons_inspect_some_ge agent o t rest hcf hlt] at h
            exact hkeep h
      | relay o =>
        by_cases hr : o.assignedAgentId = some agent.id
        · rw [selectTarget_cons_relay_assigned agent o target rest hcf hr] at h
          exact hswap hr h
        · rw [selectTarget_cons_relay_not agent o target rest hcf hr] at h
          exact hkeep h
      | zone o =>
        by_cases hz : agent.id ∈ o.assignedAgentIds
        · rw [selectTarget_cons_zone_mem agent o target rest hcf hz] at h
          exact hswap hz h
        · rw [selectTarget_cons_zone_not agent o target rest hcf hz] at h
          exact hkeep h

theorem selectTarget_inspect_min (agent : Agent) :
    ∀ (objs : List Objective) (target : Option Objective) (r : Objective),
      (∀ o ∈ objs, o.completed = false → eligibleObjective agent o → isInspect o) →
      selectTarget agent target objs = some r →
      (∀ o ∈ objs, o.completed = false → isInspect o →
        distance agent.state.position r.position ≤ distance agent.state.position o.position) ∧
      (∀ t, target = some t →
        distance agent.state.position r.position ≤ distance agent.state.position t.position) := by
  intro objs
  induction objs with
  | nil =>
    intro target r _ h
    refine ⟨by simp, fun t ht => ?_⟩
    rw [ht] at h
    injection h with h
    subst h
    exact le_refl _
  | cons obj rest ih =>
    intro target r hyp h
    have hyprest : ∀ o ∈ rest, o.completed = false → eligibleObjective agent o →
        isInspect o := fun o ho => hyp o (List.mem_cons_of_mem _ ho)
    by_cases hc : obj.completed = true
    · rw [selectTarget_cons_completed agent target obj rest hc] at h
      obtain ⟨hmin, htar⟩ := ih target r hyprest h
      refine ⟨fun o ho hoc hoi => ?_, htar⟩
      rcases List.mem_cons.mp ho with rfl | ho2
      · rw [hc] at hoc; cases hoc
      · exact hmin o ho2 hoc hoi
    · have hcf : obj.completed = false := by rwa [Bool.not_eq_true] at hc
      cases obj with
      | inspect o =>
        rcases htar : target with _ | t
        · subst htar
          rw [selectTarget_cons_inspect_none agent o rest hcf] at h
          obtain ⟨hmin, htgt⟩ := ih (some (Objective.inspect o)) r hyprest h
          have hro : distance agent.state.position r.position ≤
              distance agent.state.position (Objective.inspect o).position :=
            htgt _ rfl
          refine ⟨fun o2 ho hoc hoi => ?_, fun t ht => by cases ht⟩
          rcases List.mem_cons.mp ho with rfl | ho2
          · exact hro
          · exact hmin o2 ho2 hoc hoi
        · subst htar
          by_cases hlt : distance agent.state.position o.position <
              distance agent.state.position t.position
          · rw [selectTarget_cons_inspect_some_lt agent o t rest hcf hlt] at h
            obtain ⟨hmin, htgt⟩ := ih (some (Objective.inspect o)) r hyprest h
            have hro : distance agent.state.position r.position ≤
                distance agent.state.position (Objective.inspect o).position :=
              htgt _ rfl
            refine ⟨fun o2 ho hoc hoi => ?_, fun t2 ht2 => ?_⟩
            · rcases List.mem_cons.mp ho with rfl | ho2
              · exact hro
              · exact hmin o2 ho2 hoc hoi
            · injection ht2 with ht2
              subst ht2
              exact le_trans hro (le_of_lt hlt)
          · rw [selectTarget_cons_inspect_some_ge agent o t rest hcf hlt] at h
            obtain ⟨hmin, htgt⟩ := ih (some t) r hyprest h
            have hrt : distance agent.state.position r.position ≤
                distance agent.state.position t.position := htgt _ rfl
            refine ⟨fun o2 ho hoc hoi => ?_, fun t2 ht2 => ?_⟩
            · rcases List.mem_cons.mp ho with rfl | ho2
              · exact le_trans hrt (not_lt.mp hlt)
              · exact hmin o2 ho2 hoc hoi
            · injection ht2 with ht2
              subst ht2
              exact hrt
      | relay o =>
        by_cases hr : o.assignedAgentId = some agent.id
        · exact absurd (hyp _ (List.mem_cons_self _ _) hcf hr) (by simp [isInspect])
        · rw [selectTarget_cons_relay_not agent o target rest hcf hr] at h
          obtain ⟨hmin, htar⟩ := ih target r hyprest h
          refine ⟨fun o2 ho hoc hoi => ?_, htar⟩
          rcases List.mem_cons.mp ho with rfl | ho2
          · exact absurd hoi (by simp [isInspect])
          · exact hmin o2 ho2 hoc hoi
      | zone o =>
        by_cases hz : agent.id ∈ o.assignedAgentIds
        · exact absurd (hyp _ (List.mem_cons_self _ _) hcf hz) (by simp [isInspect])
        · rw [selectTarget_cons_zone_not agent o target rest hcf hz] at h
          obtain ⟨hmin, htar⟩ := ih target r hyprest h
          refine ⟨fun o2 ho hoc hoi => ?_, htar⟩
          rcases List.mem_cons.mp ho with rfl | ho2
          · exact absurd hoi (by simp [isInspect])
          · exact hmin o2 ho2 hoc hoi

theorem distance_mk (x1 y1 z1 x2 y2 z2 : ℝ) :
    distance ⟨x1, y1, z1⟩ ⟨x2, y2, z2⟩ =
      Real.sqrt ((x2 - x1) * (x2 - x1) + (y2 - y1) * (y2 - y1) + (z2 - z1) * (z2 - z1)) :=
  rfl

/-- Once a target is selected, the steering output is the componentwise formula
of the source. -/
theorem computeObjectiveSteering_eq_of_some (agent : Agent) (objs : List Objective)
    (params : ObjectiveSteeringParams) (r : Objective)
    (hr : selectTarget agent none objs = some r) :
    computeObjectiveSteering agent objs params =
      if distance agent.state.position r.position < 1e-6 then ⟨⟨0, 0, 0⟩⟩
      else ⟨⟨(r.position.x - agent.state.position.x) /
              distance agent.state.position r.position * params.objectiveWeight,
            (r.position.y - agent.state.position.y) /
              distance agent.state.position r.position * params.objectiveWeight,
            (r.position.z - agent.state.position.z) /
              distance agent.state.position r.position * params.objectiveWeight⟩⟩ := by
  unfold computeObjectiveSteering
  rw [hr]
  rfl

/-- C7 amended: the steering result is zero when the scan selects no target
(equivalently, no uncompleted InspectPoint and no uncompleted assigned
RelayNode/Zone exists) or the agent is within 1e-6 m of it; otherwise it is the
unit direction to the selected target scaled by `objectiveWeight`, and the
selected target is some uncompleted objective the scan can tie the agent to —
only when no uncompleted assigned RelayNode/Zone occurs is it guaranteed to be
a nearest uncompleted InspectPoint. -/
theorem computeObjectiveSteering_amended (agent : Agent) (objs : List Objective)
    (params : ObjectiveSteeringParams) :
    ((selectTarget agent none objs = none →
        computeObjectiveSteering agent objs params = ⟨⟨0, 0, 0⟩⟩ ∧
        ∀ o ∈ objs, o.completed = false → ¬ eligibleObjective agent o) ∧
     (∀ r, selectTarget agent none objs = some r →
        r ∈ objs ∧ r.completed = false ∧ eligibleObjective agent r ∧
        (distance agent.state.position r.position < 1e-6 →
          computeObjectiveSteering agent objs params = ⟨⟨0, 0, 0⟩⟩) ∧
        (¬ distance agent.state.position r.position < 1e-6 →
          computeObjectiveSteering agent objs params =
            ⟨Vec3.smul params.objectiveWeight
              (Vec3.smul (distance agent.state.position r.position)⁻¹
                (Vec3.sub r.position agent.state.position))⟩))) ∧
    ((∀ o ∈ objs, o.completed = false → eligibleObjective agent o → isInspect o) →
      ∀ r, selectTarget agent none objs = some r →
        ∀ o ∈ objs, o.completed = false → isInspect o →
          distance agent.state.position r.position ≤
            distance agent.state.position o.position) := by
  refine ⟨⟨fun hnone => ⟨?_, (selectTarget_none_sound agent objs none hnone).2⟩, ?_⟩, ?_⟩
  · unfold computeObjectiveSteering
    rw [hnone]
  · intro r hr
    rcases selectTarget_some_sound agent objs none r hr with h1 | ⟨hmem, hcomp, hel⟩
    · cases h1
    refine ⟨hmem, hcomp, hel, fun hlt => ?_, fun hge => ?_⟩
    · rw [computeObjectiveSteering_eq_of_some agent objs params r hr, if_pos hlt]
    · rw [computeObjectiveSteering_eq_of_some agent objs params r hr, if_neg hge]
      simp only [Vec3.smul, Vec3.sub, VelocityAdjustment.mk.injEq, Vec3.mk_inj]
      refine ⟨by ring, by ring, by ring⟩
  · intro hyp r hr o ho hoc hoi
    exact (selectTarget_inspect_min agent objs none r hyp hr).1 o ho hoc hoi

/-! ### C7 counterexample entities -/

def agentC7 : Agent := ⟨"a", ⟨⟨0, 0, 0⟩, ⟨0, 0, 0⟩⟩⟩

def inspectNearC7 : InspectPointObjective := ⟨"i1", ⟨100, 0, 0⟩, 1, false, 50, none⟩

def relayC7 : RelayNodeObjective := ⟨"r1", ⟨0, 1000, 0⟩, 1, false, 30, 50, some "a", none⟩

def inspectMidC7 : InspectPointObjective := ⟨"i2", ⟨0, 0, 500⟩, 1, false, 50, none⟩

def objsC7 : List Objective :=
  [Objective.inspect inspectNearC7, Objective.relay relayC7, Objective.inspect inspectMidC7]

def paramsC7 : ObjectiveSteeringParams := ⟨1⟩

theorem distC7_i1 : distance agentC7.state.position
    (Objective.inspect inspectNearC7).position = 100 := by
  have h1 : agentC7.state.position = ⟨0, 0, 0⟩ := rfl
  have h2 : (Objective.inspect inspectNearC7).position = ⟨100, 0, 0⟩ := rfl
  rw [h1, h2, distance_mk]
  rw [show ((100:ℝ) - 0) * ((100:ℝ) - 0) + ((0:ℝ) - 0) * ((0:ℝ) - 0) +
      ((0:ℝ) - 0) * ((0:ℝ) - 0) = 100 ^ 2 by norm_num]
  exact Real.sqrt_sq (by norm_num)

theorem distC7_r1 : distance agentC7.state.position
    (Objective.relay relayC7).position = 1000 := by
  have h1 : agentC7.state.position = ⟨0, 0, 0⟩ := rfl
  have h2 : (Objective.relay relayC7).position = ⟨0, 1000, 0⟩ := rfl
  rw [h1, h2, distance_mk]
  rw [show ((0:ℝ) - 0) * ((0:ℝ) - 0) + ((1000:ℝ) - 0) * ((1000:ℝ) - 0) +
      ((0:ℝ) - 0) * ((0:ℝ) - 0) = 1000 ^ 2 by norm_num]
  exact Real.sqrt_sq (by norm_num)

theorem distC7_i2 : distance agentC7.state.position
    (Objective.inspect inspectMidC7).position = 500 := by
  have h1 : agentC7.state.position = ⟨0, 0, 0⟩ := rfl
  have h2 : (Objective.inspect inspectMidC7).position = ⟨0, 0, 500⟩ := rfl
  rw [h1, h2, distance_mk]
  rw [show ((0:ℝ) - 0) * ((0:ℝ) - 0) + ((0:ℝ) - 0) * ((0:ℝ) - 0) +
      ((500:ℝ) - 0) * ((500:ℝ) - 0) = 500 ^ 2 by norm_num]
  exact Real.sqrt_sq (by norm_num)

/-- On the counterexample list, the scan ends on the mid-distance InspectPoint:
the nearest InspectPoint is first replaced by the assigned RelayNode, which the
later (farther) InspectPoint then beats on distance. -/
theorem selC7 : selectTarget agentC7 none objsC7 = some (Objective.inspect inspectMidC7) := by
  show selectTarget agentC7 none
    [Objective.inspect inspectNearC7, Objective.relay relayC7,
     Objective.inspect inspectMidC7] = _
  rw [selectTarget_cons_inspect_none agentC7 inspectNearC7 _ rfl]
  rw [selectTarget_cons_relay_assigned agentC7 relayC7 _ _ rfl rfl]
  rw [selectTarget_cons_inspect_some_lt agentC7 inspectMidC7 (Objective.relay relayC7) [] rfl
    (by rw [show distance agentC7.state.position inspectMidC7.position =
          distance agentC7.state.position (Objective.inspect inspectMidC7).position from rfl,
        distC7_i2, distC7_r1]; norm_num)]
  rfl

/-- C7 counterexample: with objectives `[InspectPoint at 100 m, assigned
RelayNode at 1000 m, InspectPoint at 500 m]` (in orthogonal directions) the
code steers toward the 500 m InspectPoint — neither the nearest uncompleted
InspectPoint (100 m away, direction `(1,0,0)`) nor the explicitly assigned
RelayNode (direction `(0,1,0)`), refuting the claim's selection rule. -/
theorem computeObjectiveSteering_counterexample :
    computeObjectiveSteering agentC7 objsC7 paramsC7 = ⟨⟨0, 0, 1⟩⟩ ∧
    distance agentC7.state.position (Objective.inspect inspectNearC7).position = 100 ∧
    distance agentC7.state.position (Objective.relay relayC7).position = 1000 ∧
    distance agentC7.state.position (Objective.inspect inspectMidC7).position = 500 ∧
    (⟨⟨0, 0, 1⟩⟩ : VelocityAdjustment) ≠
      ⟨Vec3.smul paramsC7.objectiveWeight (Vec3.smul (100 : ℝ)⁻¹
        (Vec3.sub (Objective.inspect inspectNearC7).position agentC7.state.position))⟩ ∧
    (⟨⟨0, 0, 1⟩⟩ : VelocityAdjustment) ≠
      ⟨Vec3.smul paramsC7.objectiveWeight (Vec3.smul (1000 : ℝ)⁻¹
        (Vec3.sub (Objective.relay relayC7).position agentC7.state.position))⟩ := by
  refine ⟨?_, distC7_i1, distC7_r1, distC7_i2, ?_, ?_⟩
  · rw [computeObjectiveSteering_eq_of_some agentC7 objsC7 paramsC7 _ selC7]
    rw [if_neg (by rw [distC7_i2]; norm_num)]
    rw [distC7_i2]
    have hp : (Objective.inspect inspectMidC7).position = ⟨0, 0, 500⟩ := rfl
    have ha : agentC7.state.position = ⟨0, 0, 0⟩ := rfl
    have hw : paramsC7.objectiveWeight = 1 := rfl
    rw [hp, ha, hw]
    norm_num
  · have hp : (Objective.inspect inspectNearC7).position = ⟨100, 0, 0⟩ := rfl
    have ha : agentC7.state.position = ⟨0, 0, 0⟩ := rfl
    have hw : paramsC7.objectiveWeight = 1 := rfl
    rw [hp, ha, hw]
    intro h
    rw [VelocityAdjustment.mk.injEq] at h
    simp only [Vec3.smul, Vec3.sub, Vec3.mk_inj] at h
    norm_num at h
  · have hp : (Objective.relay relayC7).position = ⟨0, 1000, 0⟩ := rfl
    have ha : agentC7.state.position = ⟨0, 0, 0⟩ := rfl
    have hw : paramsC7.objectiveWeight = 1 := rfl
    rw [hp, ha, hw]
    intro h
    rw [VelocityAdjustment.mk.injEq] at h
    simp only [Vec3.smul, Vec3.sub, Vec3.mk_inj] at h
    norm_num at h

/-- Witness for C7 amended: on the counterexample input the steering output is
the unit direction to the selected target scaled by the weight. -/
theorem computeObjectiveSteering_amended_witness :
    computeObjectiveSteering agentC7 objsC7 paramsC7 =
      ⟨Vec3.smul paramsC7.objectiveWeight
        (Vec3.smul
          (distance agentC7.state.position (Objective.inspect inspectMidC7).position)⁻¹
          (Vec3.sub (Objective.inspect inspectMidC7).position agentC7.state.position))⟩ :=
  (((computeObjectiveSteering_amended agentC7 objsC7 paramsC7).1.2 _ selC7).2.2.2.2)
    (by rw [distC7_i2]; norm_num)

/-! ## Minimum separation (`enforceMinimumSeparation`, swarm localFrame source) -/

/-- Embedding of `BehaviorParams`. -/
structure BehaviorParams where
  cohesionWeight : ℝ
  separationWeight : ℝ
  alignmentWeight : ℝ
  neighborRadius : ℝ
  minSeparation : ℝ
  formationWeight : ℝ

/-- Point update of one adjustment entry, modelling the in-place
`adjustments[k].delta` mutation (out-of-range indices cannot occur for the
parallel arrays the source is called with). -/
def modifyAdj : List VelocityAdjustment → Nat → (Vec3 → Vec3) → List VelocityAdjustment
  | [], _, _ => []
  | a :: rest, 0, f => ⟨f a.delta⟩ :: rest
  | a :: rest, k + 1, f => a :: modifyAdj rest k f

/-- Body of the pairwise loop of `enforceMinimumSeparation` for indices
`(i, j)`. -/
def enforceBody (agents : List Agent) (params : BehaviorParams)
    (adjustments : List VelocityAdjustment) (i j : Nat) : List VelocityAdjustment :=
  let agent := agents.getD i default
  let other := agents.getD j default
  let dx := agent.state.position.x - other.state.position.x
  let dy := agent.state.position.y - other.state.position.y
  let dz := agent.state.position.z - other.state.position.z
  let distSq := dx * dx + dy * dy + dz * dz
  let minSepSq := params.minSeparation * params.minSeparation
  if distSq < minSepSq ∧ 1e-12 < distSq then
    let dist := Real.sqrt distSq
    let repulsionStrength := (params.minSeparation - dist) / params.minSeparation
    let repulsionWeight := params.separationWeight * repulsionStrength * 10
    let dirX := dx / dist
    let dirY := dy / dist
    let dirZ := dz / dist
    modifyAdj
      (modifyAdj adjustments i (fun d =>
        ⟨d.x + dirX * repulsionWeight, d.y + dirY * repulsionWeight, d.z + dirZ * repulsionWeight⟩))
      j (fun d =>
        ⟨d.x - dirX * repulsionWeight, d.y - dirY * repulsionWeight, d.z - dirZ * repulsionWeight⟩)
  else adjustments

/-- Embedding of `enforceMinimumSeparation(agents, adjustments, params)`: the
double loop `for i in [0, n)`, `for j in (i, n)`. -/
def enforceMinimumSeparation (agents : List Agent) (adjustments : List VelocityAdjustment)
    (params : BehaviorParams) : List VelocityAdjustment :=
  (List.range agents.length).foldl (fun acc i =>
    (List.range' (i + 1) (agents.length - (i + 1))).foldl (fun acc2 j =>
      enforceBody agents params acc2 i j) acc) adjustments

/-- The repulsion vector one close pair applies (positively to the first agent,
negatively to the second); zero outside the `(1e-6, minSeparation)` band. -/
def pairRepulsion (p q : Vec3) (params : BehaviorParams) : Vec3 :=
  let dx := p.x - q.x
  let dy := p.y - q.y
  let dz := p.z - q.z
  let distSq := dx * dx + dy * dy + dz * dz
  if distSq < params.minSeparation * params.minSeparation ∧ 1e-12 < distSq then
    let dist := Real.sqrt distSq
    Vec3.smul (params.separationWeight * ((params.minSeparation - dist) / params.minSeparation) * 10)
      ⟨dx / dist, dy / dist, dz / dist⟩
  else ⟨0, 0, 0⟩

/-- Position of the agent at an index. -/
def posOf (agents : List Agent) (k : Nat) : Vec3 := (agents.getD k default).state.position

/-- The index pairs `(i, j)` with `i < j < n`, in the loop's visit order. -/
def pairsUpTo (n : Nat) : List (Nat × Nat) :=
  (List.range n).flatMap (fun i => (List.range' (i + 1) (n - (i + 1))).map (fun j => (i, j)))

theorem modifyAdj_getElem_self :
    ∀ (l : List VelocityAdjustment) (k : Nat) (f : Vec3 → Vec3),
      (modifyAdj l k f)[k]? = (l[k]?).map (fun a => ⟨f a.delta⟩) := by
  intro l
  induction l with
  | nil => intro k f; cases k <;> simp [modifyAdj]
  | cons a rest ih =>
    intro k f
    cases k with
    | zero => simp [modifyAdj]
    | succ m => simpa [modifyAdj] using ih m f

theorem modifyAdj_getElem_ne :
    ∀ (l : List VelocityAdjustment) (k m : Nat) (f : Vec3 → Vec3), m ≠ k →
      (modifyAdj l k f)[m]? = l[m]? := by
  intro l
  induction l with
  | nil => intro k m f _; cases k <;> simp [modifyAdj]
  | cons a rest ih =>
    intro k m f hne
    cases k with
    | zero =>
      cases m with
      | zero => exact absurd rfl hne
      | succ m2 => simp [modifyAdj]
    | succ k2 =>
      cases m with
      | zero => simp [modifyAdj]
      | succ m2 => simpa [modifyAdj] using ih k2 m2 f (fun h => hne (by rw [h]))

theorem modifyAdj_id : ∀ (l : List VelocityAdjustment) (k : Nat),
    modifyAdj l k (fun d => d) = l := by
  intro l
  induction l with
  | nil => intro k; rfl
  | cons a rest ih =>
    intro k
    cases k with
    | zero => rfl
    | succ m => simp [modifyAdj, ih]

theorem pairRepulsion_pos (p q : Vec3) (params : BehaviorParams)
    (htr : (p.x - q.x) * (p.x - q.x) + (p.y - q.y) * (p.y - q.y) + (p.z - q.z) * (p.z - q.z) < params.minSeparation * params.minSeparation ∧ 1e-12 < (p.x - q.x) * (p.x - q.x) + (p.y - q.y) * (p.y - q.y) + (p.z - q.z) * (p.z - q.z)) :
    pairRepulsion p q params =
      Vec3.smul (params.separationWeight * ((params.minSeparation - Real.sqrt ((p.x - q.x) * (p.x - q.x) + (p.y - q.y) * (p.y - q.y) + (p.z - q.z) * (p.z - q.z))) / params.minSeparation) * 10)
        ⟨(p.x - q.x) / Real.sqrt ((p.x - q.x) * (p.x - q.x) + (p.y - q.y) * (p.y - q.y) + (p.z - q.z) * (p.z - q.z)),
         (p.y - q.y) / Real.sqrt ((p.x - q.x) * (p.x - q.x) + (p.y - q.y) * (p.y - q.y) + (p.z - q.z) * (p.z - q.z)),
         (p.z - q.z) / Real.sqrt ((p.x - q.x) * (p.x - q.x) + (p.y - q.y) * (p.y - q.y) + (p.z - q.z) * (p.z - q.z))⟩ := by
  unfold pairRepulsion
  rw [if_pos htr]

theorem pairRepulsion_neg (p q : Vec3) (params : BehaviorParams)
    (htr : ¬ ((p.x - q.x) * (p.x - q.x) + (p.y - q.y) * (p.y - q.y) + (p.z - q.z) * (p.z - q.z) < params.minSeparation * params.minSeparation ∧ 1e-12 < (p.x - q.x) * (p.x - q.x) + (p.y - q.y) * (p.y - q.y) + (p.z - q.z) * (p.z - q.z))) :
    pairRepulsion p q params = ⟨0, 0, 0⟩ := by
  unfold pairRepulsion
  rw [if_neg htr]

theorem enforceBody_eq (agents : List Agent) (params : BehaviorParams)
    (adjs : List VelocityAdjustment) (i j : Nat) :
    enforceBody agents params adjs i j =
      modifyAdj (modifyAdj adjs i
          (fun d => d + pairRepulsion (posOf agents i) (posOf agents j) params))
        j (fun d => d - pairRepulsion (posOf agents i) (posOf agents j) params) := by
  have hpi : posOf agents i = (agents.getD i default).state.position := rfl
  have hpj : posOf agents j = (agents.getD j default).state.position := rfl
  rw [hpi, hpj]
  unfold enforceBody
  set p := (agents.getD i default).state.position with hp
  set q := (agents.getD j default).state.position with hq
  by_cases htr : (p.x - q.x) * (p.x - q.x) + (p.y - q.y) * (p.y - q.y) + (p.z - q.z) * (p.z - q.z) < params.minSeparation * params.minSeparation ∧ 1e-12 < (p.x - q.x) * (p.x - q.x) + (p.y - q.y) * (p.y - q.y) + (p.z - q.z) * (p.z - q.z)
  · rw [if_pos htr, pairRepulsion_pos p q params htr]
    show modifyAdj (modifyAdj adjs i (fun d =>
        ⟨d.x + (p.x - q.x) / Real.sqrt ((p.x - q.x) * (p.x - q.x) + (p.y - q.y) * (p.y - q.y) + (p.z - q.z) * (p.z - q.z)) * (params.separationWeight * ((params.minSeparation - Real.sqrt ((p.x - q.x) * (p.x - q.x) + (p.y - q.y) * (p.y - q.y) + (p.z - q.z) * (p.z - q.z))) / params.minSeparation) * 10),
         d.y + (p.y - q.y) / Real.sqrt ((p.x - q.x) * (p.x - q.x) + (p.y - q.y) * (p.y - q.y) + (p.z - q.z) * (p.z - q.z)) * (params.separationWeight * ((params.minSeparation - Real.sqrt ((p.x - q.x) * (p.x - q.x) + (p.y - q.y) * (p.y - q.y) + (p.z - q.z) * (p.z - q.z))) / params.minSeparation) * 10),
         d.z + (p.z - q.z) / Real.sqrt ((p.x - q.x) * (p.x - q.x) + (p.y - q.y) * (p.y - q.y) + (p.z - q.z) * (p.z - q.z)) * (params.separationWeight * ((params.minSeparation - Real.sqrt ((p.x - q.x) * (p.x - q.x) + (p.y - q.y) * (p.y - q.y) + (p.z - q.z) * (p.z - q.z))) / params.minSeparation) * 10)⟩)) j (fun d =>
        ⟨d.x - (p.x - q.x) / Real.sqrt ((p.x - q.x) * (p.x - q.x) + (p.y - q.y) * (p.y - q.y) + (p.z - q.z) * (p.z - q.z)) * (params.separationWeight * ((params.minSeparation - Real.sqrt ((p.x - q.x) * (p.x - q.x) + (p.y - q.y) * (p.y - q.y) + (p.z - q.z) * (p.z - q.z))) / params.minSeparation) * 10),
         d.y - (p.y - q.y) / Real.sqrt ((p.x - q.x) * (p.x - q.x) + (p.y - q.y) * (p.y - q.y) + (p.z - q.z) * (p.z - q.z)) * (params.separationWeight * ((params.minSeparation - Real.sqrt ((p.x - q.x) * (p.x - q.x) + (p.y - q.y) * (p.y - q.y) + (p.z - q.z) * (p.z - q.z))) / params.minSeparation) * 10),
         d.z - (p.z - q.z) / Real.sqrt ((p.x - q.x) * (p.x - q.x) + (p.y - q.y) * (p.y - q.y) + (p.z - q.z) * (p.z - q.z)) * (params.separationWeight * ((params.minSeparation - Real.sqrt ((p.x - q.x) * (p.x - q.x) + (p.y - q.y) * (p.y - q.y) + (p.z - q.z) * (p.z - q.z))) / params.minSeparation) * 10)⟩) = _
    congr 1
    · congr 1
      funext d
      cases d
      simp only [Vec3.smul, Vec3.add_def, Vec3.mk_inj]
      refine ⟨by ring, by ring, by ring⟩
    · funext d
      cases d
      simp only [Vec3.smul, sub_eq_add_neg, Vec3.neg_def, Vec3.add_def, Vec3.mk_inj]
      refine ⟨by ring, by ring, by ring⟩
  · rw [if_neg htr, pairRepulsion_neg p q params htr]
    have h1 : (fun (d : Vec3) => d + (⟨0, 0, 0⟩ : Vec3)) = fun d => d := by
      funext d; cases d; simp
    have h2 : (fun (d : Vec3) => d - (⟨0, 0, 0⟩ : Vec3)) = fun d => d := by
      funext d; cases d; simp [sub_eq_add_neg]
    rw [h1, h2, modifyAdj_id, modifyAdj_id]

/-- Signed contribution of the ordered pair `pr` to the adjustment at index
`k`. -/
def pairContribAt (agents : List Agent) (params : BehaviorParams) (k : Nat)
    (pr : Nat × Nat) : Vec3 :=
  (if pr.1 = k then pairRepulsion (posOf agents pr.1) (posOf agents pr.2) params else 0) +
  (if pr.2 = k then -(pairRepulsion (posOf agents pr.1) (posOf agents pr.2) params) else 0)

theorem pairFold_getElem (agents : List Agent) (params : BehaviorParams) :
    ∀ (L : List (Nat × Nat)) (adjs : List VelocityAdjustment) (k : Nat),
      ((L.foldl (fun acc pr => enforceBody agents params acc pr.1 pr.2) adjs)[k]?) =
        (adjs[k]?).map (fun a => ⟨a.delta +
          (L.map (pairContribAt agents params k)).sum⟩) := by
  intro L
  induction L with
  | nil =>
    intro adjs k
    simp only [List.foldl_nil, List.map_nil, List.sum_nil, add_zero]
    cases h : adjs[k]? <;> simp
  | cons pr L ih =>
    intro adjs k
    rw [List.foldl_cons, ih]
    have hbody : (enforceBody agents params adjs pr.1 pr.2)[k]? =
        (adjs[k]?).map (fun a => ⟨a.delta + pairContribAt agents params k pr⟩) := by
      rw [enforceBody_eq]
      by_cases hk2 : pr.2 = k
      · subst hk2
        rw [modifyAdj_getElem_self]
        by_cases hk1 : pr.1 = pr.2
        · rw [hk1, modifyAdj_getElem_self]
          cases h : adjs[pr.2]? with
          | none => rfl
          | some a =>
            simp only [Option.map_some']
            refine congrArg some (congrArg VelocityAdjustment.mk ?_)
            simp only [pairContribAt, eq_self_iff_true, if_true]
            rw [if_pos hk1]
            abel
        · rw [modifyAdj_getElem_ne _ _ _ _ (fun h => hk1 h.symm)]
          cases h : adjs[pr.2]? with
          | none => rfl
          | some a =>
            simp only [Option.map_some']
            refine congrArg some (congrArg VelocityAdjustment.mk ?_)
            simp only [pairContribAt, eq_self_iff_true, if_true]
            rw [if_neg hk1]
            abel
      · rw [modifyAdj_getElem_ne _ _ _ _ (fun h => hk2 h.symm)]
        by_cases hk1 : pr.1 = k
        · subst hk1
          rw [modifyAdj_getElem_self]
          cases h : adjs[pr.1]? with
          | none => rfl
          | some a =>
            simp only [Option.map_some']
            refine congrArg some (congrArg VelocityAdjustment.mk ?_)
            simp only [pairContribAt, eq_self_iff_true, if_true]
            rw [if_neg hk2]
            abel
        · rw [modifyAdj_getElem_ne _ _ _ _ (fun h => hk1 h.symm)]
          cases h : adjs[k]? with
          | none => rfl
          | some a =>
            simp only [Option.map_some']
            refine congrArg some (congrArg VelocityAdjustment.mk ?_)
            simp only [pairContribAt]
            rw [if_neg hk1, if_neg hk2]
            abel
    rw [hbody]
    cases h : adjs[k]? with
    | none => rfl
    | some a =>
      simp only [Option.map_some', List.map_cons, List.sum_cons]
      refine congrArg some (congrArg VelocityAdjustment.mk ?_)
      abel

theorem enforce_as_pairFold (agents : List Agent) (adjs : List VelocityAdjustment)
    (params : BehaviorParams) :
    enforceMinimumSeparation agents adjs params =
      (pairsUpTo agents.length).foldl
        (fun acc pr => enforceBody agents params acc pr.1 pr.2) adjs := by
  unfold enforceMinimumSeparation pairsUpTo
  have hbind : ∀ (l : List Nat) (init : List VelocityAdjustment),
      ((l.flatMap (fun i => (List.range' (i + 1) (agents.length - (i + 1))).map
          (fun j => (i, j)))).foldl
        (fun acc pr => enforceBody agents params acc pr.1 pr.2) init) =
      l.foldl (fun acc i =>
        (List.range' (i + 1) (agents.length - (i + 1))).foldl (fun acc2 j =>
          enforceBody agents params acc2 i j) acc) init := by
    intro l
    induction l with
    | nil => intro init; rfl
    | cons a l ih =>
      intro init
      rw [List.flatMap_cons, List.foldl_append, List.foldl_cons, ih, List.foldl_map]
  rw [hbind]

/-- C5: for each pair `i < j`, either the pair is out of the repulsion band
(distance at or above `minSeparation`, or at or below the `1e-6` floor) and it
contributes nothing, or its members receive equal-and-opposite adjustments
along the line between them with magnitude
`separationWeight · (minSeparation − d)/minSeparation · 10`; every entry of the
result is the original adjustment plus the signed sum of the per-pair
contributions (`+` for the lower index of a pair, `−` for the higher). -/
theorem enforceMinimumSeparation_pairwise (agents : List Agent)
    (adjs : List VelocityAdjustment) (params : BehaviorParams)
    (hmin : 0 ≤ params.minSeparation) (hlen : adjs.length = agents.length)
    (i j : Nat) (hij : i < j) (hj : j < agents.length) :
    ((params.minSeparation ≤ distance (posOf agents i) (posOf agents j) ∨
        distance (posOf agents i) (posOf agents j) ≤ 1e-6) →
      pairRepulsion (posOf agents i) (posOf agents j) params = 0) ∧
    (1e-6 < distance (posOf agents i) (posOf agents j) →
      distance (posOf agents i) (posOf agents j) < params.minSeparation →
      pairRepulsion (posOf agents i) (posOf agents j) params =
        Vec3.smul (params.separationWeight *
            ((params.minSeparation - distance (posOf agents i) (posOf agents j)) /
              params.minSeparation) * 10)
          (Vec3.smul (distance (posOf agents i) (posOf agents j))⁻¹
            (Vec3.sub (posOf agents i) (posOf agents j)))) ∧
    (∀ k : Nat, (enforceMinimumSeparation agents adjs params)[k]? =
      (adjs[k]?).map (fun a => (⟨a.delta +
        ((pairsUpTo agents.length).map (pairContribAt agents params k)).sum⟩ :
          VelocityAdjustment))) := by
  set p := posOf agents i with hp
  set q := posOf agents j with hq
  have hS0 : 0 ≤ (p.x - q.x) * (p.x - q.x) + (p.y - q.y) * (p.y - q.y) +
      (p.z - q.z) * (p.z - q.z) := by
    nlinarith [mul_self_nonneg (p.x - q.x), mul_self_nonneg (p.y - q.y),
      mul_self_nonneg (p.z - q.z)]
  have hS : distance p q = Real.sqrt ((p.x - q.x) * (p.x - q.x) +
      (p.y - q.y) * (p.y - q.y) + (p.z - q.z) * (p.z - q.z)) := by
    show Real.sqrt _ = _
    congr 1
    ring
  have hdd : distance p q * distance p q = (p.x - q.x) * (p.x - q.x) +
      (p.y - q.y) * (p.y - q.y) + (p.z - q.z) * (p.z - q.z) := by
    rw [hS]
    exact Real.mul_self_sqrt hS0
  have hd0 : 0 ≤ distance p q := by rw [hS]; exact Real.sqrt_nonneg _
  refine ⟨fun hcase => ?_, fun h6 hlt => ?_, fun k => ?_⟩
  · apply pairRepulsion_neg
    rintro ⟨h1, h2⟩
    rcases hcase with hge | hle
    · have : params.minSeparation * params.minSeparation ≤ distance p q * distance p q :=
        mul_le_mul hge hge hmin hd0
      rw [hdd] at this
      linarith
    · have : distance p q * distance p q ≤ 1e-6 * 1e-6 :=
        mul_le_mul hle hle hd0 (by norm_num)
      rw [hdd] at this
      norm_num at this
      linarith
  · have htr : (p.x - q.x) * (p.x - q.x) + (p.y - q.y) * (p.y - q.y) +
        (p.z - q.z) * (p.z - q.z) < params.minSeparation * params.minSeparation ∧
        1e-12 < (p.x - q.x) * (p.x - q.x) + (p.y - q.y) * (p.y - q.y) +
        (p.z - q.z) * (p.z - q.z) := by
      constructor
      · rw [← hdd]
        exact mul_self_lt_mul_self hd0 hlt
      · rw [← hdd]
        have := mul_self_lt_mul_self (by norm_num : (0:ℝ) ≤ 1e-6) h6
        calc (1e-12 : ℝ) = 1e-6 * 1e-6 := by norm_num
          _ < _ := this
    rw [pairRepulsion_pos p q params htr, ← hS]
    simp only [Vec3.smul, Vec3.sub, Vec3.mk_inj]
    refine ⟨by ring, by ring, by ring⟩
  · rw [enforce_as_pairFold]
    exact pairFold_getElem agents params (pairsUpTo agents.length) adjs k

def agentsW5 : List Agent :=
  [⟨"a1", ⟨⟨0, 0, 0⟩, ⟨0, 0, 0⟩⟩⟩, ⟨"a2", ⟨⟨300, 0, 0⟩, ⟨0, 0, 0⟩⟩⟩]

def adjsW5 : List VelocityAdjustment := [⟨⟨0, 0, 0⟩⟩, ⟨⟨0, 0, 0⟩⟩]

def paramsW5 : BehaviorParams := ⟨0.1, 1, 0.5, 50000, 1000, 0.3⟩

/-- Witness for C5: a pair 300 m apart under `minSeparation = 1000` receives
the claimed repulsion. -/
theorem enforceMinimumSeparation_pairwise_witness :
    pairRepulsion (posOf agentsW5 0) (posOf agentsW5 1) paramsW5 =
      Vec3.smul (paramsW5.separationWeight *
          ((paramsW5.minSeparation - distance (posOf agentsW5 0) (posOf agentsW5 1)) /
            paramsW5.minSeparation) * 10)
        (Vec3.smul (distance (posOf agentsW5 0) (posOf agentsW5 1))⁻¹
          (Vec3.sub (posOf agentsW5 0) (posOf agentsW5 1))) := by
  have hp0 : posOf agentsW5 0 = ⟨0, 0, 0⟩ := rfl
  have hp1 : posOf agentsW5 1 = ⟨300, 0, 0⟩ := rfl
  have hd : distance (posOf agentsW5 0) (posOf agentsW5 1) = 300 := by
    rw [hp0, hp1, distance_mk]
    rw [show ((300:ℝ) - 0) * ((300:ℝ) - 0) + ((0:ℝ) - 0) * ((0:ℝ) - 0) +
        ((0:ℝ) - 0) * ((0:ℝ) - 0) = 300 ^ 2 by norm_num]
    exact Real.sqrt_sq (by norm_num)
  exact (enforceMinimumSeparation_pairwise agentsW5 adjsW5 paramsW5
    (show (0:ℝ) ≤ 1000 by norm_num) rfl 0 1 (by norm_num) (by simp [agentsW5])).2.1
    (by rw [hd]; norm_num) (by rw [hd]; show (300:ℝ) < 1000; norm_num)

end
